import Mathlib

/-!
Verification of the pattern-detection engine of `src/main.py` (bybit-smc-tracker).

The Python source works on floating-point prices; the shallow embedding models
prices as rational numbers (`ℚ`), timestamps as naturals, and candle lists as
`List Candle`.  All detector functions (`pivots_high`, `pivots_low`,
`find_d1_blocks`, `find_touch`, `detect_structure`, `detect_retest`) and the
session ledger (`was_sent`, `mark_sent`) are translated from the source,
together with the per-symbol orchestration tail of `process_symbol`.

Arithmetic layer: the standard `Rat.add`/`Rat.sub`/`Rat.mul`/`Rat.inv` are
`@[irreducible]`, so concrete runs could not be evaluated by `decide`.  The
embedding therefore uses the reducible wrappers `qadd`, `qsub`, `qmul`, `qdiv`
below, each proved equal to the corresponding `ℚ` operation, so every theorem
about them transfers to ordinary rational arithmetic.
-/

set_option maxRecDepth 2000000
set_option maxHeartbeats 2000000

/-- Reducible rational addition, equal to `a + b` (see `qadd_eq`). -/
def qadd (a b : ℚ) : ℚ := mkRat (a.num * b.den + b.num * a.den) (a.den * b.den)

/-- Reducible rational subtraction, equal to `a - b` (see `qsub_eq`). -/
def qsub (a b : ℚ) : ℚ := mkRat (a.num * b.den - b.num * a.den) (a.den * b.den)

/-- Reducible rational multiplication, equal to `a * b` (see `qmul_eq`). -/
def qmul (a b : ℚ) : ℚ := mkRat (a.num * b.num) (a.den * b.den)

/-- Reducible rational division, equal to `a / b` (see `qdiv_eq`). -/
def qdiv (a b : ℚ) : ℚ := qmul a (Rat.divInt (b.den : Int) b.num)

/-- A candle `{ts, open, high, low, close}` as produced by `get_klines`
(`src/main.py`, lines 279-287); the `open` field is named `op` because `open`
is a Lean keyword. -/
structure Candle where
  ts : Nat
  op : ℚ
  high : ℚ
  low : ℚ
  close : ℚ
deriving DecidableEq

instance : Inhabited Candle := ⟨⟨0, 0, 0, 0, 0⟩⟩

/-- Access `candles[i].high` (indices are in range wherever used). -/
def highAt (cs : List Candle) (i : Nat) : ℚ := (cs.getD i default).high

/-- Access `candles[i].low`. -/
def lowAt (cs : List Candle) (i : Nat) : ℚ := (cs.getD i default).low

/-- Access `candles[i].close`. -/
def closeAt (cs : List Candle) (i : Nat) : ℚ := (cs.getD i default).close

/-- Access `candles[i].ts`. -/
def tsAt (cs : List Candle) (i : Nat) : Nat := (cs.getD i default).ts

/-- `clamp` from `src/main.py` line 92: `max(lo, min(hi, a))`. -/
def clamp (a lo hi : ℚ) : ℚ := max lo (min hi a)

/-- `pct_tol` from `src/main.py` line 95: `abs(price) * pct`. -/
def pct_tol (price pct : ℚ) : ℚ := qmul |price| pct

/-- `in_range` from `src/main.py` lines 98-101:
`min(lo,hi) - tol <= x <= max(lo,hi) + tol`. -/
def in_range (x lo hi tol : ℚ) : Bool :=
  decide (qsub (min lo hi) tol ≤ x) && decide (x ≤ qadd (max lo hi) tol)

/-- `ranges_intersect` from `src/main.py` lines 103-106:
`not (a2 < b1 or b2 < a1)` after normalising each pair with min/max. -/
def ranges_intersect (a_lo a_hi b_lo b_hi : ℚ) : Bool :=
  !(decide (max a_lo a_hi < min b_lo b_hi) || decide (max b_lo b_hi < min a_lo a_hi))

/-- `range_intersection` from `src/main.py` lines 108-111. -/
def range_intersection (a_lo a_hi b_lo b_hi : ℚ) : Option (ℚ × ℚ) :=
  if ranges_intersect a_lo a_hi b_lo b_hi then
    some (max (min a_lo a_hi) (min b_lo b_hi), min (max a_lo a_hi) (max b_lo b_hi))
  else none

/-- `is_bull` from `src/main.py` line 113: `c > o`. -/
def is_bull (o c : ℚ) : Bool := decide (o < c)

/-- `is_bear` from `src/main.py` line 116: `c < o`. -/
def is_bear (o c : ℚ) : Bool := decide (c < o)

/-- `candle_body_range` from `src/main.py` line 341. -/
def candle_body_range (c : Candle) : ℚ × ℚ := (min c.op c.close, max c.op c.close)

/-- `candle_wick_range` from `src/main.py` line 344. -/
def candle_wick_range (c : Candle) : ℚ × ℚ := (c.low, c.high)

/-- `is_engulfing` from `src/main.py` lines 347-354: the current body covers the
previous body and has positive height. -/
def is_engulfing (prev curr : Candle) : Bool :=
  decide ((candle_body_range curr).1 ≤ (candle_body_range prev).1) &&
  decide ((candle_body_range prev).2 ≤ (candle_body_range curr).2) &&
  decide (0 < qsub (candle_body_range curr).2 (candle_body_range curr).1)

/-- `pivots_high` from `src/main.py` lines 296-314: index `i` (with
`left ≤ i < n - right`) carries `some high[i]` when every high in
`[i-left, i)` is strictly below it and no high in `(i, i+right]` strictly
exceeds it; all other indices carry `none`. -/
def pivots_high (candles : List Candle) (left right : Nat) : List (Option ℚ) :=
  (List.range candles.length).map fun i =>
    if decide (left ≤ i) && decide (i + right < candles.length)
        && ((List.range' (i - left) left).all fun j => decide (highAt candles j < highAt candles i))
        && ((List.range' (i + 1) right).all fun j => decide (highAt candles j ≤ highAt candles i))
    then some (highAt candles i) else none

/-- `pivots_low` from `src/main.py` lines 316-334, symmetric to `pivots_high`. -/
def pivots_low (candles : List Candle) (left right : Nat) : List (Option ℚ) :=
  (List.range candles.length).map fun i =>
    if decide (left ≤ i) && decide (i + right < candles.length)
        && ((List.range' (i - left) left).all fun j => decide (lowAt candles i < lowAt candles j))
        && ((List.range' (i + 1) right).all fun j => decide (lowAt candles i ≤ lowAt candles j))
    then some (lowAt candles i) else none

/-- Block kind: `"движущий"` (movement) or `"смягчающий"` (mitigation) in the
source dictionaries. -/
inductive BlockKind | movement | mitigation
deriving DecidableEq

/-- Trade direction: `"лонг"` (long) or `"шорт"` (short) in the source. -/
inductive TradeDir | long | short
deriving DecidableEq

/-- A D1 order-block candidate as built by `find_d1_blocks` (`src/main.py`
lines 400-407, 416-423, 436-443, 451-458).  `level` models the
`break_swing` / `mitigate_level` meta field and `breakTs` the
`break_ts` / `from_break_ts` meta field. -/
structure Block where
  kind : BlockKind
  dir : TradeDir
  ts : Nat
  body : ℚ × ℚ
  wick : ℚ × ℚ
  level : ℚ
  breakTs : Nat
deriving DecidableEq

/-- The `(index, price)` list of non-`none` pivots, as built in
`src/main.py` lines 375-376. -/
def swing_points (piv : List (Option ℚ)) : List (Nat × ℚ) :=
  (List.range piv.length).filterMap fun i => (piv.getD i none).map fun v => (i, v)

/-- `last_swing_before` from `src/main.py` lines 381-385: walk the swing list
from its end and return the first entry with index `< idx`. -/
def last_swing_before (swings : List (Nat × ℚ)) (idx : Nat) : Option (Nat × ℚ) :=
  swings.reverse.find? fun s => decide (s.1 < idx)

/-- The backward walk of `src/main.py` lines 395-397 / 431-433: starting at
position `j` and stepping down, the nearest index whose candle satisfies `p`
(bearish resp. bullish), or `none` when no such candle exists down to index 0. -/
def last_opposite_before (d1 : List Candle) (p : Candle → Bool) : Nat → Option Nat
  | 0 => if p (d1.getD 0 default) then some 0 else none
  | j + 1 => if p (d1.getD (j + 1) default) then some (j + 1) else last_opposite_before d1 p j

/-- The forward scan of `src/main.py` lines 411-425 / 446-460: the first index
`k ≥ i` whose wick range `[low, high]` contains `lvl`. -/
def first_mitigation_from (d1 : List Candle) (lvl : ℚ) (i : Nat) : Option Nat :=
  (List.range' i (d1.length - i)).find? fun k =>
    decide (lowAt d1 k ≤ lvl) && decide (lvl ≤ highAt d1 k)

/-- Blocks emitted by the up-breakout branch of iteration `i` of
`find_d1_blocks` (`src/main.py` lines 392-425): when `candles[i].high` exceeds
the last swing high before `i`, a movement block at the nearest bearish candle
before `i` (if any) followed by a mitigation block at the first candle from `i`
on whose wick contains the broken level (if any). -/
def breakout_blocks_up (d1 : List Candle) (sh : List (Nat × ℚ)) (i : Nat) : List Block :=
  match last_swing_before sh i with
  | none => []
  | some sw =>
    if sw.2 < highAt d1 i then
      (match last_opposite_before d1 (fun c => is_bear c.op c.close) (i - 1) with
       | some j =>
         [{ kind := .movement, dir := .long, ts := tsAt d1 j,
            body := candle_body_range (d1.getD j default),
            wick := candle_wick_range (d1.getD j default),
            level := sw.2, breakTs := tsAt d1 i }]
       | none => []) ++
      (match first_mitigation_from d1 sw.2 i with
       | some k =>
         [{ kind := .mitigation, dir := .long, ts := tsAt d1 k,
            body := candle_body_range (d1.getD k default),
            wick := candle_wick_range (d1.getD k default),
            level := sw.2, breakTs := tsAt d1 i }]
       | none => [])
    else []

/-- Blocks emitted by the down-breakout branch of iteration `i` of
`find_d1_blocks` (`src/main.py` lines 427-460), symmetric to
`breakout_blocks_up`. -/
def breakout_blocks_down (d1 : List Candle) (sl : List (Nat × ℚ)) (i : Nat) : List Block :=
  match last_swing_before sl i with
  | none => []
  | some sw =>
    if lowAt d1 i < sw.2 then
      (match last_opposite_before d1 (fun c => is_bull c.op c.close) (i - 1) with
       | some j =>
         [{ kind := .movement, dir := .short, ts := tsAt d1 j,
            body := candle_body_range (d1.getD j default),
            wick := candle_wick_range (d1.getD j default),
            level := sw.2, breakTs := tsAt d1 i }]
       | none => []) ++
      (match first_mitigation_from d1 sw.2 i with
       | some k =>
         [{ kind := .mitigation, dir := .short, ts := tsAt d1 k,
            body := candle_body_range (d1.getD k default),
            wick := candle_wick_range (d1.getD k default),
            level := sw.2, breakTs := tsAt d1 i }]
       | none => [])
    else []

/-- Insert a block into a ts-descending list, before the first entry whose
`ts` it reaches; together with `sort_desc` this models the stable
`blocks.sort(key=ts, reverse=True)` of `src/main.py` line 464. -/
def insert_desc (b : Block) : List Block → List Block
  | [] => [b]
  | x :: xs => if x.ts ≤ b.ts then b :: x :: xs else x :: insert_desc b xs

/-- Stable descending-by-`ts` sort (`src/main.py` line 464). -/
def sort_desc (l : List Block) : List Block := l.foldr insert_desc []

/-- The dedup key `(b["type"], b["dir"])` of `src/main.py` line 469. -/
def block_key (b : Block) : BlockKind × TradeDir := (b.kind, b.dir)

/-- The dedup loop of `src/main.py` lines 466-473: keep the first occurrence of
each `(kind, dir)` key. -/
def dedup_by_key : List Block → List (BlockKind × TradeDir) → List Block
  | [], _ => []
  | b :: rest, seen =>
    if block_key b ∈ seen then dedup_by_key rest seen
    else b :: dedup_by_key rest (block_key b :: seen)

/-- `find_d1_blocks` from `src/main.py` lines 356-475, with the candle fetch
replaced by the input list `d1` and the pivot window sizes passed explicitly
(`CONFIG["D1_PIVOT_LEFT"]` / `CONFIG["D1_PIVOT_RIGHT"]`). -/
def find_d1_blocks (d1 : List Candle) (left right : Nat) : List Block :=
  if d1.length < 20 then [] else
  let sh := swing_points (pivots_high d1 left right)
  let sl := swing_points (pivots_low d1 left right)
  let blocks := (List.range' 5 (d1.length - 5)).flatMap fun i =>
    breakout_blocks_up d1 sh i ++ breakout_blocks_down d1 sl i
  dedup_by_key (sort_desc blocks) []

/-- The raw candidate list built by the breakout scan of `find_d1_blocks`
(`src/main.py` lines 387-460), before the sort and the per-key dedup. -/
def emitted_blocks (d1 : List Candle) (left right : Nat) : List Block :=
  (List.range' 5 (d1.length - 5)).flatMap fun i =>
    breakout_blocks_up d1 (swing_points (pivots_high d1 left right)) i ++
    breakout_blocks_down d1 (swing_points (pivots_low d1 left right)) i

/-- Touch part: `"ТЕЛО"` (body) or `"ТЕНЬ"` (wick) in the source. -/
inductive TouchPart | body | wick
deriving DecidableEq

/-- The P1 record returned by `find_touch` (`src/main.py` lines 522-528). -/
structure TouchEvent where
  ts : Nat
  h1_low : ℚ
  h1_high : ℚ
  touch_price : ℚ
  touch_part : TouchPart
deriving DecidableEq

/-- The per-candle body of the `find_touch` loop (`src/main.py` lines 499-528):
expand body and wick ranges of the block by `pct_tol(mid, tol)` where `mid` is
the wick-range midpoint, and classify an intersecting candle as body touch
(taking precedence) or wick touch. -/
def touch_of (blk : Block) (tol : ℚ) (c : Candle) : Option TouchEvent :=
  let mid := qdiv (qadd blk.wick.1 blk.wick.2) 2
  let t := pct_tol mid tol
  let body_lo2 := qsub blk.body.1 t
  let body_hi2 := qadd blk.body.2 t
  let wick_lo2 := qsub blk.wick.1 t
  let wick_hi2 := qadd blk.wick.2 t
  if ranges_intersect c.low c.high wick_lo2 wick_hi2 then
    if ranges_intersect c.low c.high body_lo2 body_hi2 then
      some { ts := c.ts, h1_low := c.low, h1_high := c.high,
             touch_price :=
               match range_intersection c.low c.high body_lo2 body_hi2 with
               | some p => p.1
               | none => clamp (qdiv (qadd c.low c.high) 2) wick_lo2 wick_hi2,
             touch_part := .body }
    else
      some { ts := c.ts, h1_low := c.low, h1_high := c.high,
             touch_price :=
               match range_intersection c.low c.high wick_lo2 wick_hi2 with
               | some p => p.1
               | none => clamp (qdiv (qadd c.low c.high) 2) wick_lo2 wick_hi2,
             touch_part := .wick }
  else none

/-- `find_touch` from `src/main.py` lines 482-529, with the candle fetch
replaced by the input list `h1` and `CONFIG["D1_BLOCK_TOL_PCT"]` passed as
`tol`: scan the closed candles `h1[:-1]` from the most recent backwards and
return the first touch. -/
def find_touch (h1 : List Candle) (blk : Block) (tol : ℚ) : Option TouchEvent :=
  if h1.length < 10 then none
  else (h1.dropLast.reverse).findSome? (touch_of blk tol)

/-- The `(price, timestamp)` records in `detect_structure`'s returned
dictionary (`src/main.py` lines 612-613, 657-658). -/
structure PricePoint where
  ts : Nat
  price : ℚ
deriving DecidableEq

/-- The `bos` record of `detect_structure`'s result (`src/main.py` line 614). -/
structure BosPoint where
  ts : Nat
  close : ℚ
deriving DecidableEq

/-- The result dictionary of `detect_structure` (`src/main.py` lines 610-615,
655-660). -/
structure StructRes where
  direction : TradeDir
  p2 : PricePoint
  p3 : Option PricePoint
  bos : BosPoint
deriving DecidableEq

/-- The mutable loop state of `detect_structure` (`src/main.py` lines 572-579,
620-627): the `(index, value)` pairs for points 1-3 (`p1_i`/`p1_val` etc.),
each `none` while unset. -/
structure TrackState where
  p1 : Option (Nat × ℚ)
  p2 : Option (Nat × ℚ)
  p3 : Option (Nat × ℚ)
deriving DecidableEq

/-- The point-1 statement group of the `"шорт"` branch of `detect_structure`
(`src/main.py` lines 582-590): a strictly higher pivot high refreshes point 1
and clears points 2 and 3. -/
def p1_step_short (ph : List (Option ℚ)) (s : TrackState) (i : Nat) : TrackState :=
  match ph.getD i none, s.p1 with
  | some v, none => ⟨some (i, v), none, none⟩
  | some v, some p => if p.2 < v then ⟨some (i, v), none, none⟩ else s
  | none, _ => s

/-- The point-2 statement group of the `"шорт"` branch (`src/main.py` lines
592-596): the first pivot low strictly after point 1 becomes point 2. -/
def p2_step_short (pl : List (Option ℚ)) (s : TrackState) (i : Nat) : TrackState :=
  match s.p1, pl.getD i none, s.p2 with
  | some p, some v, none => if p.1 < i then { s with p2 := some (i, v) } else s
  | _, _, _ => s

/-- The point-3 statement group of the `"шорт"` branch (`src/main.py` lines
598-602): the first pivot high strictly after point 2 and strictly below
point 1 becomes point 3. -/
def p3_step_short (ph : List (Option ℚ)) (s : TrackState) (i : Nat) : TrackState :=
  match s.p2, ph.getD i none, s.p3 with
  | some q, some v, none =>
    if decide (q.1 < i) && (match s.p1 with | some p => decide (v < p.2) | none => true) then
      { s with p3 := some (i, v) }
    else s
  | _, _, _ => s

/-- One iteration of the state updates of the `"шорт"` branch of
`detect_structure` (`src/main.py` lines 582-602), in source statement order. -/
def upd_short (ph pl : List (Option ℚ)) (s : TrackState) (i : Nat) : TrackState :=
  p3_step_short ph (p2_step_short pl (p1_step_short ph s i) i) i

/-- The point-1 statement group of the `"лонг"` branch (`src/main.py` lines
629-636): a strictly lower pivot low refreshes point 1 and clears points 2
and 3. -/
def p1_step_long (pl : List (Option ℚ)) (s : TrackState) (i : Nat) : TrackState :=
  match pl.getD i none, s.p1 with
  | some v, none => ⟨some (i, v), none, none⟩
  | some v, some p => if v < p.2 then ⟨some (i, v), none, none⟩ else s
  | none, _ => s

/-- The point-2 statement group of the `"лонг"` branch (`src/main.py` lines
638-641). -/
def p2_step_long (ph : List (Option ℚ)) (s : TrackState) (i : Nat) : TrackState :=
  match s.p1, ph.getD i none, s.p2 with
  | some p, some v, none => if p.1 < i then { s with p2 := some (i, v) } else s
  | _, _, _ => s

/-- The point-3 statement group of the `"лонг"` branch (`src/main.py` lines
643-647). -/
def p3_step_long (pl : List (Option ℚ)) (s : TrackState) (i : Nat) : TrackState :=
  match s.p2, pl.getD i none, s.p3 with
  | some q, some v, none =>
    if decide (q.1 < i) && (match s.p1 with | some p => decide (p.2 < v) | none => true) then
      { s with p3 := some (i, v) }
    else s
  | _, _, _ => s

/-- One iteration of the state updates of the `"лонг"` branch of
`detect_structure` (`src/main.py` lines 629-647), in source statement order. -/
def upd_long (ph pl : List (Option ℚ)) (s : TrackState) (i : Nat) : TrackState :=
  p3_step_long pl (p2_step_long ph (p1_step_long pl s i) i) i

/-- The BOS test of the `"шорт"` branch at iteration `i` (`src/main.py` lines
604-615): with point 2 set and `i` past point 3 (or point 2 when point 3 is
unset), a close strictly below `p2 - |p2| * min_pct` returns the structure
result. -/
def bos_check_short (seq : List Candle) (min_pct : ℚ) (s : TrackState) (i : Nat) :
    Option StructRes :=
  match s.p2 with
  | none => none
  | some q =>
    let gate := match s.p3 with | some r => r.1 | none => q.1
    if gate < i ∧ closeAt seq i < qsub q.2 (qmul |q.2| min_pct) then
      some { direction := .short,
             p2 := ⟨tsAt seq q.1, q.2⟩,
             p3 := s.p3.map fun r => ⟨tsAt seq r.1, r.2⟩,
             bos := ⟨tsAt seq i, closeAt seq i⟩ }
    else none

/-- The BOS test of the `"лонг"` branch at iteration `i` (`src/main.py` lines
649-660), symmetric to `bos_check_short`. -/
def bos_check_long (seq : List Candle) (min_pct : ℚ) (s : TrackState) (i : Nat) :
    Option StructRes :=
  match s.p2 with
  | none => none
  | some q =>
    let gate := match s.p3 with | some r => r.1 | none => q.1
    if gate < i ∧ qadd q.2 (qmul |q.2| min_pct) < closeAt seq i then
      some { direction := .long,
             p2 := ⟨tsAt seq q.1, q.2⟩,
             p3 := s.p3.map fun r => ⟨tsAt seq r.1, r.2⟩,
             bos := ⟨tsAt seq i, closeAt seq i⟩ }
    else none

/-- The `"шорт"` loop of `detect_structure` (`src/main.py` lines 582-617):
run the state updates candle by candle and return at the first BOS. -/
def detect_loop_short (seq : List Candle) (ph pl : List (Option ℚ)) (min_pct : ℚ) :
    List Nat → TrackState → Option StructRes
  | [], _ => none
  | i :: rest, s =>
    let s' := upd_short ph pl s i
    match bos_check_short seq min_pct s' i with
    | some r => some r
    | none => detect_loop_short seq ph pl min_pct rest s'

/-- The `"лонг"` loop of `detect_structure` (`src/main.py` lines 629-662). -/
def detect_loop_long (seq : List Candle) (ph pl : List (Option ℚ)) (min_pct : ℚ) :
    List Nat → TrackState → Option StructRes
  | [], _ => none
  | i :: rest, s =>
    let s' := upd_long ph pl s i
    match bos_check_long seq min_pct s' i with
    | some r => some r
    | none => detect_loop_long seq ph pl min_pct rest s'

/-- The state of the short-branch tracker after processing the first `n`
candles (the pure fold of `upd_short`, the per-candle update used by
`detect_loop_short`). -/
def struct_scan_short (ph pl : List (Option ℚ)) (n : Nat) : TrackState :=
  (List.range n).foldl (upd_short ph pl) ⟨none, none, none⟩

/-- The state of the long-branch tracker after processing the first `n`
candles (the pure fold of `upd_long`). -/
def struct_scan_long (ph pl : List (Option ℚ)) (n : Nat) : TrackState :=
  (List.range n).foldl (upd_long ph pl) ⟨none, none, none⟩

/-- `detect_structure` from `src/main.py` lines 536-662, with the candle fetch
replaced by the input list `h1` and the configuration
(`H1_PIVOT_LEFT`/`H1_PIVOT_RIGHT`/`BOS_MIN_PCT`) passed explicitly: cut the
series at the first candle at or after `p1_ts`, drop the unclosed last candle,
compute pivots and run the direction's loop. -/
def detect_structure (h1 : List Candle) (dir : TradeDir) (p1_ts : Nat)
    (left right : Nat) (min_pct : ℚ) : Option StructRes :=
  if h1.length < 30 then none else
  match h1.findIdx? (fun c => decide (p1_ts ≤ c.ts)) with
  | none => none
  | some idx0 =>
    let seq := h1.dropLast.drop idx0
    if seq.length < 20 then none else
    let ph := pivots_high seq left right
    let pl := pivots_low seq left right
    match dir with
    | .short => detect_loop_short seq ph pl min_pct (List.range seq.length) ⟨none, none, none⟩
    | .long => detect_loop_long seq ph pl min_pct (List.range seq.length) ⟨none, none, none⟩

/-- Which level the retest hit (`src/main.py` lines 684-686). -/
inductive RetestWhich | P2 | P3
deriving DecidableEq

/-- The result of `detect_retest` (`src/main.py` lines 684-686). -/
structure RetestEvent where
  ts : Nat
  price : ℚ
  which : RetestWhich
deriving DecidableEq

/-- `detect_retest` from `src/main.py` lines 665-687, with the candle fetch
replaced by the input list `h1` and `CONFIG["RETEST_TOL_PCT"]` passed as
`rtol`: among closed candles after `bos_ts`, the first whose range reaches
`p2_price` within tolerance (P2 checked first), else `p3_price`.  As in the
source, the P3 check is skipped when `p3_price` is falsy (absent or zero). -/
def detect_retest (h1 : List Candle) (bos_ts : Nat) (p2_price : ℚ)
    (p3_price : Option ℚ) (rtol : ℚ) : Option RetestEvent :=
  if h1.length < 10 then none else
  let after := h1.dropLast.filter fun c => decide (bos_ts < c.ts)
  if after.isEmpty then none else
  let tol2 := pct_tol p2_price rtol
  let tol3 : Option ℚ :=
    match p3_price with
    | some p => if p ≠ 0 then some (pct_tol p rtol) else none
    | none => none
  after.findSome? fun c =>
    if in_range p2_price c.low c.high tol2 then
      some ⟨c.ts, p2_price, .P2⟩
    else
      match p3_price, tol3 with
      | some p, some t3 =>
        if in_range p c.low c.high t3 then some ⟨c.ts, p, .P3⟩ else none
      | _, _ => none

/-- `was_sent` from `src/main.py` lines 149-152: membership of the key in the
persisted `sent` map, modelled as the insertion-ordered key list. -/
def was_sent {K : Type} [DecidableEq K] (sent : List K) (k : K) : Bool :=
  sent.contains k

/-- `mark_sent` from `src/main.py` lines 154-165: insert the key (a repeated
key keeps its position, as in a Python dict), then, when more than 6000
records exist, keep only the most recent 4500 (`items[-4500:]`). -/
def mark_sent {K : Type} [DecidableEq K] (sent : List K) (k : K) : List K :=
  let s := if sent.contains k then sent else sent ++ [k]
  if 6000 < s.length then s.drop (s.length - 4500) else s

/-- Successive scheduler passes over the anti-spam block of `process_symbol`
(`src/main.py` lines 819-826) with successful delivery: each entry of `ks` is
the `(symbol, direction, session)` key of one pass that reached the send
point; a pass sends (and marks) only when `was_sent` is false.  Returns the
final ledger and how many sends happened for the tracked key `k`. -/
def run_passes {K : Type} [DecidableEq K] (k : K) :
    List K → List K → Nat → List K × Nat
  | [], sent, c => (sent, c)
  | k' :: rest, sent, c =>
    if was_sent sent k' then run_passes k rest sent c
    else run_passes k rest (mark_sent sent k') (if k' = k then c + 1 else c)

/-- The phase reported by `process_symbol` (`src/main.py` lines 770-773). -/
inductive Phase | WAIT_TOUCH | WAIT_BREAK | WAIT_RETEST | DONE | ERR
deriving DecidableEq

/-- The configuration values consumed by one `process_symbol` call
(`src/main.py` lines 41-58). -/
structure ScanConfig where
  d1_left : Nat
  d1_right : Nat
  h1_left : Nat
  h1_right : Nat
  block_tol_pct : ℚ
  bos_min_pct : ℚ
  retest_tol_pct : ℚ

/-- A `sent`-ledger key `f"{symbol}|{direction}|{session_id}"`
(`src/main.py` line 151), modelled as the triple itself. -/
abbrev SentKey := String × TradeDir × Nat

/-- The observable outcome of one `process_symbol` call: the returned phase,
the persisted per-symbol session id and `sent` ledger, whether notification
delivery was requested (`send_telegram` called), and the anti-spam key used. -/
structure ProcessResult where
  phase : Phase
  session : Option Nat
  sent : List SentKey
  send_requested : Bool
  key : Option SentKey
deriving DecidableEq

/-- `process_symbol` from `src/main.py` lines 769-834, with the candle fetches
replaced by the input lists `d1` (daily series) and `h1` (hourly series) and
the configuration passed explicitly.  `delivery_ok` models whether
`send_telegram` succeeds; when it raises, the exception is caught at line 833
and the ledger is left unchanged (`mark_sent` unreached).  The engulfing
filter (lines 788-795) uses the last two daily candles, as the separate
5-candle fetch returns the tail of the same series. -/
def process_symbol (cfg : ScanConfig) (symbol : String) (d1 h1 : List Candle)
    (session0 : Option Nat) (sent : List SentKey) (delivery_ok : Bool) :
    ProcessResult :=
  match (find_d1_blocks d1 cfg.d1_left cfg.d1_right).head? with
  | none => ⟨.WAIT_TOUCH, session0, sent, false, none⟩
  | some blk =>
    if 2 ≤ d1.length ∧
        is_engulfing (d1.getD (d1.length - 2) default) (d1.getD (d1.length - 1) default) then
      ⟨.WAIT_TOUCH, session0, sent, false, none⟩
    else
      match find_touch h1 blk cfg.block_tol_pct with
      | none => ⟨.WAIT_TOUCH, session0, sent, false, none⟩
      | some p1 =>
        let sid := p1.ts
        match detect_structure h1 blk.dir p1.ts cfg.h1_left cfg.h1_right cfg.bos_min_pct with
        | none => ⟨.WAIT_BREAK, some sid, sent, false, some (symbol, blk.dir, sid)⟩
        | some st =>
          let ret := detect_retest h1 st.bos.ts st.p2.price
            (st.p3.map PricePoint.price) cfg.retest_tol_pct
          let k : SentKey := (symbol, blk.dir, sid)
          if was_sent sent k then
            ⟨if ret.isNone then .WAIT_RETEST else .DONE, some sid, sent, false, some k⟩
          else if delivery_ok then
            ⟨if ret.isNone then .WAIT_RETEST else .DONE, some sid,
              mark_sent sent k, true, some k⟩
          else
            ⟨.ERR, some sid, sent, true, some k⟩

/-- A 20-candle daily fixture: a pivot high `100` at index 3 is broken by
candle 6 (`high = 110`), candle 5 is bearish, and candle 6's own wick
contains the broken level; no other breakout occurs. -/
def dFix : List Candle :=
  [⟨0, 5, 10, 0, 8⟩, ⟨100, 10, 20, 0, 15⟩, ⟨200, 15, 30, 0, 25⟩,
   ⟨300, 30, 100, 0, 90⟩, ⟨400, 30, 30, 0, 28⟩, ⟨500, 20, 20, 0, 10⟩,
   ⟨600, 10, 110, 0, 110⟩, ⟨700, 40, 50, 0, 45⟩, ⟨800, 40, 50, 0, 45⟩,
   ⟨900, 40, 50, 0, 45⟩, ⟨1000, 40, 50, 0, 45⟩, ⟨1100, 40, 50, 0, 45⟩,
   ⟨1200, 40, 50, 0, 45⟩, ⟨1300, 40, 50, 0, 45⟩, ⟨1400, 40, 50, 0, 45⟩,
   ⟨1500, 40, 50, 0, 45⟩, ⟨1600, 40, 50, 0, 45⟩, ⟨1700, 40, 50, 0, 45⟩,
   ⟨1800, 40, 50, 0, 50⟩, ⟨1900, 45, 50, 0, 46⟩]

/-- The mitigation block `find_d1_blocks` emits for `dFix`: it sits at the
breakout candle itself (ts 600 = the break ts). -/
def blockFix : Block := ⟨.mitigation, .long, 600, (10, 110), (0, 110), 100, 600⟩

/-- The movement block `find_d1_blocks` emits for `dFix` (bearish candle 5). -/
def blockMovFix : Block := ⟨.movement, .long, 500, (10, 20), (0, 20), 100, 600⟩

/-- A 35-candle hourly fixture: only candle 0 touches the `dFix` block zone;
then a pivot low `120` at index 2 (P1), a pivot high `160` at index 4 (P2) and
a close `170 > 160` at index 6 (BOS), with no later candle returning to 160
(no retest). -/
def h1Fix : List Candle :=
  [⟨1000, 110, 120, 100, 115⟩, ⟨1001, 135, 140, 130, 138⟩,
   ⟨1002, 140, 150, 120, 145⟩, ⟨1003, 140, 150, 125, 140⟩,
   ⟨1004, 140, 160, 130, 150⟩, ⟨1005, 150, 150, 130, 150⟩,
   ⟨1006, 145, 175, 140, 170⟩, ⟨1007, 172, 180, 170, 175⟩,
   ⟨1008, 172, 180, 170, 175⟩, ⟨1009, 172, 180, 170, 175⟩,
   ⟨1010, 172, 180, 170, 175⟩, ⟨1011, 172, 180, 170, 175⟩,
   ⟨1012, 172, 180, 170, 175⟩, ⟨1013, 172, 180, 170, 175⟩,
   ⟨1014, 172, 180, 170, 175⟩, ⟨1015, 172, 180, 170, 175⟩,
   ⟨1016, 172, 180, 170, 175⟩, ⟨1017, 172, 180, 170, 175⟩,
   ⟨1018, 172, 180, 170, 175⟩, ⟨1019, 172, 180, 170, 175⟩,
   ⟨1020, 172, 180, 170, 175⟩, ⟨1021, 172, 180, 170, 175⟩,
   ⟨1022, 172, 180, 170, 175⟩, ⟨1023, 172, 180, 170, 175⟩,
   ⟨1024, 172, 180, 170, 175⟩, ⟨1025, 172, 180, 170, 175⟩,
   ⟨1026, 172, 180, 170, 175⟩, ⟨1027, 172, 180, 170, 175⟩,
   ⟨1028, 172, 180, 170, 175⟩, ⟨1029, 172, 180, 170, 175⟩,
   ⟨1030, 172, 180, 170, 175⟩, ⟨1031, 172, 180, 170, 175⟩,
   ⟨1032, 172, 180, 170, 175⟩, ⟨1033, 172, 180, 170, 175⟩,
   ⟨1034, 172, 180, 170, 175⟩]

/-- `h1Fix` with candle 10 dipping back to the broken level 160, so the retest
is found at ts 1010. -/
def h1RFix : List Candle :=
  [⟨1000, 110, 120, 100, 115⟩, ⟨1001, 135, 140, 130, 138⟩,
   ⟨1002, 140, 150, 120, 145⟩, ⟨1003, 140, 150, 125, 140⟩,
   ⟨1004, 140, 160, 130, 150⟩, ⟨1005, 150, 150, 130, 150⟩,
   ⟨1006, 145, 175, 140, 170⟩, ⟨1007, 172, 180, 170, 175⟩,
   ⟨1008, 172, 180, 170, 175⟩, ⟨1009, 172, 180, 170, 175⟩,
   ⟨1010, 160, 165, 155, 160⟩, ⟨1011, 172, 180, 170, 175⟩,
   ⟨1012, 172, 180, 170, 175⟩, ⟨1013, 172, 180, 170, 175⟩,
   ⟨1014, 172, 180, 170, 175⟩, ⟨1015, 172, 180, 170, 175⟩,
   ⟨1016, 172, 180, 170, 175⟩, ⟨1017, 172, 180, 170, 175⟩,
   ⟨1018, 172, 180, 170, 175⟩, ⟨1019, 172, 180, 170, 175⟩,
   ⟨1020, 172, 180, 170, 175⟩, ⟨1021, 172, 180, 170, 175⟩,
   ⟨1022, 172, 180, 170, 175⟩, ⟨1023, 172, 180, 170, 175⟩,
   ⟨1024, 172, 180, 170, 175⟩, ⟨1025, 172, 180, 170, 175⟩,
   ⟨1026, 172, 180, 170, 175⟩, ⟨1027, 172, 180, 170, 175⟩,
   ⟨1028, 172, 180, 170, 175⟩, ⟨1029, 172, 180, 170, 175⟩,
   ⟨1030, 172, 180, 170, 175⟩, ⟨1031, 172, 180, 170, 175⟩,
   ⟨1032, 172, 180, 170, 175⟩, ⟨1033, 172, 180, 170, 175⟩,
   ⟨1034, 172, 180, 170, 175⟩]

/-- A 20-candle sequence whose only pivot high is `5` at index 1, while the
running maximum of the highs over the first 4 candles is `9` (at the non-pivot
index 3, whose right window disqualifies it). -/
def c4Fix : List Candle :=
  [⟨0, 0, 1, 0, 1⟩, ⟨1, 0, 5, 0, 5⟩, ⟨2, 0, 1, 0, 1⟩, ⟨3, 0, 9, 0, 9⟩,
   ⟨4, 0, 10, 0, 10⟩, ⟨5, 0, 11, 0, 11⟩, ⟨6, 0, 12, 0, 12⟩, ⟨7, 0, 13, 0, 13⟩,
   ⟨8, 0, 14, 0, 14⟩, ⟨9, 0, 15, 0, 15⟩, ⟨10, 0, 16, 0, 16⟩, ⟨11, 0, 17, 0, 17⟩,
   ⟨12, 0, 18, 0, 18⟩, ⟨13, 0, 19, 0, 19⟩, ⟨14, 0, 20, 0, 20⟩, ⟨15, 0, 21, 0, 21⟩,
   ⟨16, 0, 22, 0, 22⟩, ⟨17, 0, 23, 0, 23⟩, ⟨18, 0, 24, 0, 24⟩, ⟨19, 0, 25, 0, 25⟩]

/-- A 20-candle sequence with pivot lows `50` at index 1 and `40` at index 3,
used to exercise the long-branch P1 reset. -/
def dLongFix : List Candle :=
  [⟨0, 90, 100, 90, 100⟩, ⟨1, 50, 60, 50, 60⟩, ⟨2, 90, 100, 90, 100⟩,
   ⟨3, 40, 50, 40, 50⟩, ⟨4, 90, 100, 90, 100⟩, ⟨5, 85, 95, 85, 95⟩,
   ⟨6, 80, 90, 80, 90⟩, ⟨7, 75, 85, 75, 85⟩, ⟨8, 70, 80, 70, 80⟩,
   ⟨9, 65, 75, 65, 75⟩, ⟨10, 60, 70, 60, 70⟩, ⟨11, 55, 65, 55, 65⟩,
   ⟨12, 50, 60, 50, 60⟩, ⟨13, 45, 55, 45, 55⟩, ⟨14, 40, 50, 40, 50⟩,
   ⟨15, 35, 45, 35, 45⟩, ⟨16, 30, 40, 30, 40⟩, ⟨17, 25, 35, 25, 35⟩,
   ⟨18, 20, 30, 20, 30⟩, ⟨19, 15, 25, 15, 25⟩]

/-- A 20-candle sequence for the short branch: P1 is the pivot high `50` at
index 1, P2 the pivot low `3` at index 3; the pivot high at index 5 equals P1
(`50`) and is skipped, while the lower pivot high `40` at index 7 becomes P3. -/
def c5Fix : List Candle :=
  [⟨0, 5, 10, 5, 10⟩, ⟨1, 5, 50, 5, 50⟩, ⟨2, 5, 20, 5, 20⟩, ⟨3, 3, 15, 3, 15⟩,
   ⟨4, 5, 20, 5, 20⟩, ⟨5, 5, 50, 5, 50⟩, ⟨6, 5, 20, 5, 20⟩, ⟨7, 5, 40, 5, 40⟩,
   ⟨8, 5, 40, 5, 40⟩, ⟨9, 5, 41, 5, 41⟩, ⟨10, 5, 42, 5, 42⟩, ⟨11, 5, 43, 5, 43⟩,
   ⟨12, 5, 44, 5, 44⟩, ⟨13, 5, 45, 5, 45⟩, ⟨14, 5, 46, 5, 46⟩, ⟨15, 5, 47, 5, 47⟩,
   ⟨16, 5, 48, 5, 48⟩, ⟨17, 5, 49, 5, 49⟩, ⟨18, 5, 50, 5, 50⟩, ⟨19, 5, 51, 5, 51⟩]

/-- Four candles with equal highs `50` at indices 1 and 2: only the earlier
one is a pivot high. -/
def tieFix : List Candle :=
  [⟨0, 0, 0, 0, 0⟩, ⟨1, 0, 50, 0, 50⟩, ⟨2, 0, 50, 0, 50⟩, ⟨3, 0, 0, 0, 0⟩]

/-- Configuration used by the concrete runs: pivot windows 1/1 and all
percentage tolerances zero (all are environment-configurable in
`src/main.py` lines 41-58). -/
def cfgFix : ScanConfig := ⟨1, 1, 1, 1, 0, 0, 0⟩

/-- The LONG-side mirror of `c5Fix`: P1 is the pivot low `50` at index 1, P2
the pivot high `97` at index 3; the pivot low at index 5 equals P1 (`50`) and
is skipped, while the higher pivot low `60` at index 7 becomes P3. -/
def c5LongFix : List Candle :=
  [⟨0, 90, 95, 90, 95⟩, ⟨1, 50, 95, 50, 95⟩, ⟨2, 80, 95, 80, 95⟩,
   ⟨3, 85, 97, 85, 97⟩, ⟨4, 80, 95, 80, 95⟩, ⟨5, 50, 95, 50, 95⟩,
   ⟨6, 80, 95, 80, 95⟩, ⟨7, 60, 95, 60, 95⟩, ⟨8, 60, 95, 60, 95⟩,
   ⟨9, 59, 95, 59, 95⟩, ⟨10, 58, 95, 58, 95⟩, ⟨11, 57, 95, 57, 95⟩,
   ⟨12, 56, 95, 56, 95⟩, ⟨13, 55, 95, 55, 95⟩, ⟨14, 54, 95, 54, 95⟩,
   ⟨15, 53, 95, 53, 95⟩, ⟨16, 52, 95, 52, 95⟩, ⟨17, 51, 95, 51, 95⟩,
   ⟨18, 50, 95, 50, 95⟩, ⟨19, 49, 95, 49, 95⟩]

/-- Running maximum of a price list, following the spec's wording "running
extremum (max high for SHORT ...)". -/
def running_max (l : List ℚ) : Option ℚ :=
  l.foldl (fun acc x => match acc with | none => some x | some m => some (max m x)) none

/-- Running minimum of a price list (the LONG-side running extremum). -/
def running_min (l : List ℚ) : Option ℚ :=
  l.foldl (fun acc x => match acc with | none => some x | some m => some (min m x)) none

/-- The pivot values among the first `n` entries of a pivot list, in order. -/
def pivot_vals (piv : List (Option ℚ)) (n : Nat) : List ℚ :=
  (List.range n).filterMap fun i => piv.getD i none

/-- The first pivot `(index, value)` with index strictly after `j` among the
first `n` entries, following the spec's wording "the first pivot ... observed
after ...". -/
def first_pivot_after (piv : List (Option ℚ)) (j n : Nat) : Option (Nat × ℚ) :=
  (List.range n).findSome? fun i =>
    if j < i then (piv.getD i none).map fun v => (i, v) else none

/-- The first pivot strictly after `j` whose value is strictly below `bound`
(the amended P3 rule for SHORT sessions). -/
def first_pivot_after_below (piv : List (Option ℚ)) (j n : Nat) (bound : ℚ) :
    Option (Nat × ℚ) :=
  (List.range n).findSome? fun i =>
    if j < i then
      (piv.getD i none).bind fun v => if v < bound then some (i, v) else none
    else none

/-- The first pivot strictly after `j` whose value is strictly above `bound`
(the amended P3 rule for LONG sessions). -/
def first_pivot_after_above (piv : List (Option ℚ)) (j n : Nat) (bound : ℚ) :
    Option (Nat × ℚ) :=
  (List.range n).findSome? fun i =>
    if j < i then
      (piv.getD i none).bind fun v => if bound < v then some (i, v) else none
    else none

/-- Concrete ledger keys (symbol, direction, session timestamp) used to
exercise the eviction path of `mark_sent`. -/
def keyFix (i : Nat) : SentKey := ("BTCUSDT", TradeDir.long, i)

/-- A lower-timeframe candle that touches `blockFix`'s wick range but not its
body range. -/
def cWFix : Candle := ⟨0, 5, 9, 1, 6⟩

theorem qadd_eq (a b : ℚ) : qadd a b = a + b := (Rat.add_def' a b).symm

theorem qsub_eq (a b : ℚ) : qsub a b = a - b := (Rat.sub_def' a b).symm

theorem qmul_eq (a b : ℚ) : qmul a b = a * b := by
  rw [Rat.mul_def, Rat.normalize_eq_mkRat]; rfl

theorem qdiv_eq (a b : ℚ) : qdiv a b = a / b := by
  rw [Rat.div_def, Rat.inv_def, ← qmul_eq]; rfl

theorem getD_map_range {α : Type} (f : Nat → α) (n i : Nat) (d : α) :
    ((List.range n).map f).getD i d = if i < n then f i else d := by
  by_cases h : i < n
  · simp [List.getD_eq_getElem?_getD, List.getElem?_map, List.getElem?_range, h]
  · have hle : (List.range n).length ≤ i := by
      rw [List.length_range]; exact Nat.le_of_not_lt h
    simp [List.getD_eq_getElem?_getD, List.getElem?_map, List.getElem?_eq_none hle, h]

theorem pivots_high_eq_some_iff (cs : List Candle) (left right i : Nat) (v : ℚ) :
    (pivots_high cs left right).getD i none = some v ↔
      v = highAt cs i ∧ left ≤ i ∧ i + right < cs.length ∧
      (∀ j, i - left ≤ j → j < i → highAt cs j < highAt cs i) ∧
      (∀ j, i < j → j ≤ i + right → highAt cs j ≤ highAt cs i) := by
  unfold pivots_high
  rw [getD_map_range]
  by_cases hn : i < cs.length
  · rw [if_pos hn]
    by_cases hc : (decide (left ≤ i) && decide (i + right < cs.length)
        && ((List.range' (i - left) left).all fun j => decide (highAt cs j < highAt cs i))
        && ((List.range' (i + 1) right).all fun j => decide (highAt cs j ≤ highAt cs i))) = true
    · rw [if_pos hc]
      simp only [Bool.and_eq_true, List.all_eq_true, decide_eq_true_eq,
        List.mem_range'_1] at hc
      obtain ⟨⟨⟨h1, h2⟩, h3⟩, h4⟩ := hc
      constructor
      · rintro h; cases h
        refine ⟨rfl, h1, h2, ?_, ?_⟩
        · intro j hj1 hj2
          exact h3 j ⟨hj1, by omega⟩
        · intro j hj1 hj2
          exact h4 j ⟨hj1, by omega⟩
      · rintro ⟨rfl, _⟩; rfl
    · rw [if_neg hc]
      simp only [Bool.and_eq_true, List.all_eq_true, decide_eq_true_eq,
        List.mem_range'_1, not_and_or] at hc
      constructor
      · rintro ⟨⟩
      · rintro ⟨rfl, h1, h2, h3, h4⟩
        rcases hc with ((hc | hc) | hc) | hc
        · exact (hc h1).elim
        · exact (hc h2).elim
        · exact (hc fun j hj => h3 j hj.1 (by omega)).elim
        · exact (hc fun j hj => h4 j (by omega) (by omega)).elim
  · rw [if_neg hn]
    constructor
    · rintro ⟨⟩
    · rintro ⟨_, _, h2, _⟩
      exact absurd h2 (by omega)

theorem pivots_low_eq_some_iff (cs : List Candle) (left right i : Nat) (v : ℚ) :
    (pivots_low cs left right).getD i none = some v ↔
      v = lowAt cs i ∧ left ≤ i ∧ i + right < cs.length ∧
      (∀ j, i - left ≤ j → j < i → lowAt cs i < lowAt cs j) ∧
      (∀ j, i < j → j ≤ i + right → lowAt cs i ≤ lowAt cs j) := by
  unfold pivots_low
  rw [getD_map_range]
  by_cases hn : i < cs.length
  · rw [if_pos hn]
    by_cases hc : (decide (left ≤ i) && decide (i + right < cs.length)
        && ((List.range' (i - left) left).all fun j => decide (lowAt cs i < lowAt cs j))
        && ((List.range' (i + 1) right).all fun j => decide (lowAt cs i ≤ lowAt cs j))) = true
    · rw [if_pos hc]
      simp only [Bool.and_eq_true, List.all_eq_true, decide_eq_true_eq,
        List.mem_range'_1] at hc
      obtain ⟨⟨⟨h1, h2⟩, h3⟩, h4⟩ := hc
      constructor
      · rintro h; cases h
        refine ⟨rfl, h1, h2, ?_, ?_⟩
        · intro j hj1 hj2
          exact h3 j ⟨hj1, by omega⟩
        · intro j hj1 hj2
          exact h4 j ⟨hj1, by omega⟩
      · rintro ⟨rfl, _⟩; rfl
    · rw [if_neg hc]
      simp only [Bool.and_eq_true, List.all_eq_true, decide_eq_true_eq,
        List.mem_range'_1, not_and_or] at hc
      constructor
      · rintro ⟨⟩
      · rintro ⟨rfl, h1, h2, h3, h4⟩
        rcases hc with ((hc | hc) | hc) | hc
        · exact (hc h1).elim
        · exact (hc h2).elim
        · exact (hc fun j hj => h3 j hj.1 (by omega)).elim
        · exact (hc fun j hj => h4 j (by omega) (by omega)).elim
  · rw [if_neg hn]
    constructor
    · rintro ⟨⟩
    · rintro ⟨_, _, h2, _⟩
      exact absurd h2 (by omega)

/-- C6 counterexample: at equal highs (indices 1 and 2 of `tieFix`, both `50`)
the EARLIER candle is the pivot and the later one is not, refuting the claim's
tie rule ("the later-index candle is the pivot while the earlier equal candle
is not"). -/
theorem c6_counterexample :
    (pivots_high tieFix 1 1).getD 1 none = some 50 ∧
    (pivots_high tieFix 1 1).getD 2 none = none ∧
    highAt tieFix 1 = highAt tieFix 2 := by
  refine ⟨by decide, by decide, by decide⟩

/-- C6 (amended): for all window sizes, index `i` is a pivot high iff
`left ≤ i < n - right`, every high in `[i-left, i)` is strictly below
`high[i]`, and no high in `(i, i+right]` strictly exceeds it (symmetric for
pivot lows); and at equal highs (resp. lows) within window reach, the
later-index candidate is NOT a pivot — the tie goes to the earlier index. -/
theorem c6_pivot_rule (cs : List Candle) (left right i : Nat) (v : ℚ) :
    ((pivots_high cs left right).getD i none = some v ↔
      v = highAt cs i ∧ left ≤ i ∧ i + right < cs.length ∧
      (∀ j, i - left ≤ j → j < i → highAt cs j < highAt cs i) ∧
      (∀ j, i < j → j ≤ i + right → highAt cs j ≤ highAt cs i)) ∧
    ((pivots_low cs left right).getD i none = some v ↔
      v = lowAt cs i ∧ left ≤ i ∧ i + right < cs.length ∧
      (∀ j, i - left ≤ j → j < i → lowAt cs i < lowAt cs j) ∧
      (∀ j, i < j → j ≤ i + right → lowAt cs i ≤ lowAt cs j)) ∧
    (∀ j, i < j → j ≤ i + left → highAt cs i = highAt cs j →
      (pivots_high cs left right).getD j none = none) ∧
    (∀ j, i < j → j ≤ i + left → lowAt cs i = lowAt cs j →
      (pivots_low cs left right).getD j none = none) := by
  refine ⟨pivots_high_eq_some_iff cs left right i v,
    pivots_low_eq_some_iff cs left right i v, ?_, ?_⟩
  · intro j hij hjl heq
    by_contra hne
    obtain ⟨w, hw⟩ := Option.ne_none_iff_exists'.mp hne
    obtain ⟨_, _, _, hstrict, _⟩ := (pivots_high_eq_some_iff cs left right j w).mp hw
    exact absurd (hstrict i (by omega) hij) (by rw [heq]; exact lt_irrefl _)
  · intro j hij hjl heq
    by_contra hne
    obtain ⟨w, hw⟩ := Option.ne_none_iff_exists'.mp hne
    obtain ⟨_, _, _, hstrict, _⟩ := (pivots_low_eq_some_iff cs left right j w).mp hw
    exact absurd (hstrict i (by omega) hij) (by rw [heq]; exact lt_irrefl _)

/-- C6 witness: the amended tie rule applied at the concrete tie in `tieFix`
(equal highs at indices 1, 2; equal lows as well). -/
theorem c6_pivot_rule_witness :
    (pivots_high tieFix 1 1).getD 2 none = none ∧
    (pivots_low tieFix 1 1).getD 2 none = none :=
  ⟨(c6_pivot_rule tieFix 1 1 1 50).2.2.1 2 (by decide) (by decide) (by decide),
   (c6_pivot_rule tieFix 1 1 1 50).2.2.2 2 (by decide) (by decide) (by decide)⟩

theorem struct_scan_short_succ (ph pl : List (Option ℚ)) (n : Nat) :
    struct_scan_short ph pl (n + 1) = upd_short ph pl (struct_scan_short ph pl n) n := by
  unfold struct_scan_short
  rw [List.range_succ, List.foldl_append]
  rfl

theorem struct_scan_long_succ (ph pl : List (Option ℚ)) (n : Nat) :
    struct_scan_long ph pl (n + 1) = upd_long ph pl (struct_scan_long ph pl n) n := by
  unfold struct_scan_long
  rw [List.range_succ, List.foldl_append]
  rfl

theorem p2_step_short_p1 (pl : List (Option ℚ)) (s : TrackState) (i : Nat) :
    (p2_step_short pl s i).p1 = s.p1 := by
  unfold p2_step_short
  split
  · split <;> rfl
  · rfl

theorem p3_step_short_p1 (ph : List (Option ℚ)) (s : TrackState) (i : Nat) :
    (p3_step_short ph s i).p1 = s.p1 := by
  unfold p3_step_short
  split
  · split <;> rfl
  · rfl

theorem p3_step_short_p2 (ph : List (Option ℚ)) (s : TrackState) (i : Nat) :
    (p3_step_short ph s i).p2 = s.p2 := by
  unfold p3_step_short
  split
  · split <;> rfl
  · rfl

theorem p2_step_long_p1 (ph : List (Option ℚ)) (s : TrackState) (i : Nat) :
    (p2_step_long ph s i).p1 = s.p1 := by
  unfold p2_step_long
  split
  · split <;> rfl
  · rfl

theorem p3_step_long_p1 (pl : List (Option ℚ)) (s : TrackState) (i : Nat) :
    (p3_step_long pl s i).p1 = s.p1 := by
  unfold p3_step_long
  split
  · split <;> rfl
  · rfl

theorem p3_step_long_p2 (pl : List (Option ℚ)) (s : TrackState) (i : Nat) :
    (p3_step_long pl s i).p2 = s.p2 := by
  unfold p3_step_long
  split
  · split <;> rfl
  · rfl

theorem upd_short_p1 (ph pl : List (Option ℚ)) (s : TrackState) (i : Nat) :
    (upd_short ph pl s i).p1 = (p1_step_short ph s i).p1 := by
  unfold upd_short
  rw [p3_step_short_p1, p2_step_short_p1]

theorem upd_long_p1 (ph pl : List (Option ℚ)) (s : TrackState) (i : Nat) :
    (upd_long ph pl s i).p1 = (p1_step_long pl s i).p1 := by
  unfold upd_long
  rw [p3_step_long_p1, p2_step_long_p1]

theorem pivot_vals_succ (piv : List (Option ℚ)) (n : Nat) :
    pivot_vals piv (n + 1) = pivot_vals piv n ++ (piv.getD n none).toList := by
  unfold pivot_vals
  rw [List.range_succ, List.filterMap_append]
  rcases hv : piv.getD n none with _ | v <;>
    rw [List.getD_eq_getElem?_getD] at hv <;> simp [hv]

theorem p1_step_short_p1_none (ph : List (Option ℚ)) (s : TrackState) (i : Nat)
    (h : ph.getD i none = none) : (p1_step_short ph s i).p1 = s.p1 := by
  unfold p1_step_short
  rw [h]

theorem p1_step_short_p1_some (ph : List (Option ℚ)) (s : TrackState) (i : Nat) (v : ℚ)
    (h : ph.getD i none = some v) :
    ((p1_step_short ph s i).p1).map Prod.snd =
      some (((s.p1).map Prod.snd).elim v fun m => max m v) := by
  unfold p1_step_short
  rw [h]
  rcases hs : s.p1 with _ | p
  · rfl
  · dsimp only
    by_cases hlt : p.2 < v
    · rw [if_pos hlt]
      simp [max_eq_right hlt.le]
    · rw [if_neg hlt]
      rw [hs]
      simp [max_eq_left (not_lt.mp hlt)]

theorem p1_step_long_p1_none (pl : List (Option ℚ)) (s : TrackState) (i : Nat)
    (h : pl.getD i none = none) : (p1_step_long pl s i).p1 = s.p1 := by
  unfold p1_step_long
  rw [h]

theorem p1_step_long_p1_some (pl : List (Option ℚ)) (s : TrackState) (i : Nat) (v : ℚ)
    (h : pl.getD i none = some v) :
    ((p1_step_long pl s i).p1).map Prod.snd =
      some (((s.p1).map Prod.snd).elim v fun m => min m v) := by
  unfold p1_step_long
  rw [h]
  rcases hs : s.p1 with _ | p
  · rfl
  · dsimp only
    by_cases hlt : v < p.2
    · rw [if_pos hlt]
      simp [min_eq_right hlt.le]
    · rw [if_neg hlt]
      rw [hs]
      simp [min_eq_left (not_lt.mp hlt)]

theorem running_max_append (l : List ℚ) (v : ℚ) :
    running_max (l ++ [v]) = some ((running_max l).elim v fun m => max m v) := by
  unfold running_max
  rw [List.foldl_append]
  generalize List.foldl
    (fun acc x => match acc with | none => some x | some m => some (max m x)) none l = acc
  rcases acc with _ | m <;> rfl

theorem running_min_append (l : List ℚ) (v : ℚ) :
    running_min (l ++ [v]) = some ((running_min l).elim v fun m => min m v) := by
  unfold running_min
  rw [List.foldl_append]
  generalize List.foldl
    (fun acc x => match acc with | none => some x | some m => some (min m x)) none l = acc
  rcases acc with _ | m <;> rfl

theorem scan_short_p1_eq (ph pl : List (Option ℚ)) :
    ∀ n, ((struct_scan_short ph pl n).p1).map Prod.snd = running_max (pivot_vals ph n)
  | 0 => rfl
  | n + 1 => by
    have ih := scan_short_p1_eq ph pl n
    rw [struct_scan_short_succ, pivot_vals_succ, upd_short_p1]
    rcases hv : ph.getD n none with _ | v
    · rw [p1_step_short_p1_none ph _ n hv, Option.toList, List.append_nil]
      exact ih
    · rw [p1_step_short_p1_some ph _ n v hv, Option.toList, running_max_append, ← ih]

theorem scan_long_p1_eq (ph pl : List (Option ℚ)) :
    ∀ n, ((struct_scan_long ph pl n).p1).map Prod.snd = running_min (pivot_vals pl n)
  | 0 => rfl
  | n + 1 => by
    have ih := scan_long_p1_eq ph pl n
    rw [struct_scan_long_succ, pivot_vals_succ, upd_long_p1]
    rcases hv : pl.getD n none with _ | v
    · rw [p1_step_long_p1_none pl _ n hv, Option.toList, List.append_nil]
      exact ih
    · rw [p1_step_long_p1_some pl _ n v hv, Option.toList, running_min_append, ← ih]

theorem p2_step_short_fresh (pl : List (Option ℚ)) (n : Nat) (v : ℚ) :
    p2_step_short pl ⟨some (n, v), none, none⟩ n = ⟨some (n, v), none, none⟩ := by
  unfold p2_step_short
  rcases hw : pl.getD n none with _ | w <;> simp [hw]

theorem p2_step_long_fresh (ph : List (Option ℚ)) (n : Nat) (v : ℚ) :
    p2_step_long ph ⟨some (n, v), none, none⟩ n = ⟨some (n, v), none, none⟩ := by
  unfold p2_step_long
  rcases hw : ph.getD n none with _ | w <;> simp [hw]

theorem p3_step_short_p2none (ph : List (Option ℚ)) (s : TrackState) (i : Nat)
    (h : s.p2 = none) : p3_step_short ph s i = s := by
  unfold p3_step_short
  split <;> simp_all

theorem p3_step_long_p2none (pl : List (Option ℚ)) (s : TrackState) (i : Nat)
    (h : s.p2 = none) : p3_step_long pl s i = s := by
  unfold p3_step_long
  split <;> simp_all

/-- C4 counterexample: after the tracker has processed the first 4 candles of
`c4Fix` (SHORT branch, pivot windows 1/1), `p1` holds the pivot high `5`
(index 1), while the running extremum over ALL candles seen so far is `9`
(the non-pivot high at index 3), so `p1` is not the running extremum over all
candles as the claim states. -/
theorem c4_counterexample :
    (struct_scan_short (pivots_high c4Fix 1 1) (pivots_low c4Fix 1 1) 4).p1 = some (1, 5) ∧
    running_max ((c4Fix.take 4).map Candle.high) = some 9 ∧
    (5 : ℚ) ≠ 9 := by
  refine ⟨by decide, by decide, by decide⟩

/-- C4 (amended): within one session, `p1` is the running extremum of the
PIVOT values seen so far (maximum pivot high for SHORT, minimum pivot low for
LONG, `src/main.py` lines 582-590 and 629-636); and whenever a new pivot
strictly extends `p1`, the whole state is reset to the fresh `p1` with `p2`
and `p3` cleared (there is no separate `bos` field to clear — the loop
returns at the first BOS). -/
theorem c4_p1_pivot_extremum (ph pl : List (Option ℚ)) (n : Nat) :
    ((struct_scan_short ph pl n).p1).map Prod.snd = running_max (pivot_vals ph n) ∧
    ((struct_scan_long ph pl n).p1).map Prod.snd = running_min (pivot_vals pl n) ∧
    (∀ v p, ph.getD n none = some v → (struct_scan_short ph pl n).p1 = some p → p.2 < v →
      struct_scan_short ph pl (n + 1) = ⟨some (n, v), none, none⟩) ∧
    (∀ v p, pl.getD n none = some v → (struct_scan_long ph pl n).p1 = some p → v < p.2 →
      struct_scan_long ph pl (n + 1) = ⟨some (n, v), none, none⟩) := by
  refine ⟨scan_short_p1_eq ph pl n, scan_long_p1_eq ph pl n, ?_, ?_⟩
  · intro v p hv hp hlt
    rw [struct_scan_short_succ]
    have h1 : p1_step_short ph (struct_scan_short ph pl n) n = ⟨some (n, v), none, none⟩ := by
      unfold p1_step_short
      rw [hv, hp]
      dsimp only
      rw [if_pos hlt]
    unfold upd_short
    rw [h1, p2_step_short_fresh]
    exact p3_step_short_p2none ph _ n rfl
  · intro v p hv hp hlt
    rw [struct_scan_long_succ]
    have h1 : p1_step_long pl (struct_scan_long ph pl n) n = ⟨some (n, v), none, none⟩ := by
      unfold p1_step_long
      rw [hv, hp]
      dsimp only
      rw [if_pos hlt]
    unfold upd_long
    rw [h1, p2_step_long_fresh]
    exact p3_step_long_p2none pl _ n rfl

/-- C4 witness: the amended invariant applied at concrete resets — processing
candle 6 of `dFix` (pivot high `110 > 100`) resets the SHORT state, and
processing candle 3 of `dLongFix` (pivot low `40 < 50`) resets the LONG
state. -/
theorem c4_p1_pivot_extremum_witness :
    struct_scan_short (pivots_high dFix 1 1) (pivots_low dFix 1 1) 7 =
      ⟨some (6, 110), none, none⟩ ∧
    struct_scan_long (pivots_high dLongFix 1 1) (pivots_low dLongFix 1 1) 4 =
      ⟨some (3, 40), none, none⟩ :=
  ⟨(c4_p1_pivot_extremum (pivots_high dFix 1 1) (pivots_low dFix 1 1) 6).2.2.1
      110 (3, 100) (by decide) (by decide) (by decide),
   (c4_p1_pivot_extremum (pivots_high dLongFix 1 1) (pivots_low dLongFix 1 1) 3).2.2.2
      40 (1, 50) (by decide) (by decide) (by decide)⟩

theorem p1_step_short_none (ph : List (Option ℚ)) (s : TrackState) (i : Nat)
    (h : ph.getD i none = none) : p1_step_short ph s i = s := by
  unfold p1_step_short
  rw [h]

theorem p1_step_short_init (ph : List (Option ℚ)) (s : TrackState) (i : Nat) (v : ℚ)
    (h : ph.getD i none = some v) (hp : s.p1 = none) :
    p1_step_short ph s i = ⟨some (i, v), none, none⟩ := by
  unfold p1_step_short
  rw [h, hp]

theorem p1_step_short_keep (ph : List (Option ℚ)) (s : TrackState) (i : Nat) (v : ℚ)
    (p : Nat × ℚ) (h : ph.getD i none = some v) (hp : s.p1 = some p) (hlt : ¬p.2 < v) :
    p1_step_short ph s i = s := by
  unfold p1_step_short
  rw [h, hp]
  dsimp only
  rw [if_neg hlt]

theorem p1_step_long_none (pl : List (Option ℚ)) (s : TrackState) (i : Nat)
    (h : pl.getD i none = none) : p1_step_long pl s i = s := by
  unfold p1_step_long
  rw [h]

theorem p1_step_long_init (pl : List (Option ℚ)) (s : TrackState) (i : Nat) (v : ℚ)
    (h : pl.getD i none = some v) (hp : s.p1 = none) :
    p1_step_long pl s i = ⟨some (i, v), none, none⟩ := by
  unfold p1_step_long
  rw [h, hp]

theorem p1_step_long_keep (pl : List (Option ℚ)) (s : TrackState) (i : Nat) (v : ℚ)
    (p : Nat × ℚ) (h : pl.getD i none = some v) (hp : s.p1 = some p) (hlt : ¬v < p.2) :
    p1_step_long pl s i = s := by
  unfold p1_step_long
  rw [h, hp]
  dsimp only
  rw [if_neg hlt]

theorem p2_step_short_none (pl : List (Option ℚ)) (s : TrackState) (i : Nat)
    (h : pl.getD i none = none) : p2_step_short pl s i = s := by
  obtain ⟨sp1, sp2, sp3⟩ := s
  unfold p2_step_short
  rw [h]
  rcases sp1 with _ | p <;> rfl

theorem p2_step_short_p1none (pl : List (Option ℚ)) (s : TrackState) (i : Nat)
    (h : s.p1 = none) : p2_step_short pl s i = s := by
  unfold p2_step_short
  rw [h]

theorem p2_step_short_assign (pl : List (Option ℚ)) (s : TrackState) (i : Nat)
    (p : Nat × ℚ) (w : ℚ) (hp : s.p1 = some p) (hw : pl.getD i none = some w)
    (hq : s.p2 = none) (hlt : p.1 < i) :
    p2_step_short pl s i = { s with p2 := some (i, w) } := by
  unfold p2_step_short
  rw [hp, hw, hq]
  dsimp only
  rw [if_pos hlt]

theorem p2_step_short_late (pl : List (Option ℚ)) (s : TrackState) (i : Nat)
    (p : Nat × ℚ) (w : ℚ) (hp : s.p1 = some p) (hw : pl.getD i none = some w)
    (hq : s.p2 = none) (hlt : ¬p.1 < i) :
    p2_step_short pl s i = s := by
  unfold p2_step_short
  rw [hp, hw, hq]
  dsimp only
  rw [if_neg hlt]

theorem p2_step_short_p2some (pl : List (Option ℚ)) (s : TrackState) (i : Nat)
    (q : Nat × ℚ) (hq : s.p2 = some q) : p2_step_short pl s i = s := by
  obtain ⟨sp1, sp2, sp3⟩ := s
  unfold p2_step_short
  rcases sp1 with _ | p <;> rcases hw : pl.getD i none with _ | w <;> simp_all

theorem p2_step_long_none (ph : List (Option ℚ)) (s : TrackState) (i : Nat)
    (h : ph.getD i none = none) : p2_step_long ph s i = s := by
  obtain ⟨sp1, sp2, sp3⟩ := s
  unfold p2_step_long
  rw [h]
  rcases sp1 with _ | p <;> rfl

theorem p2_step_long_p1none (ph : List (Option ℚ)) (s : TrackState) (i : Nat)
    (h : s.p1 = none) : p2_step_long ph s i = s := by
  unfold p2_step_long
  rw [h]

theorem p2_step_long_assign (ph : List (Option ℚ)) (s : TrackState) (i : Nat)
    (p : Nat × ℚ) (w : ℚ) (hp : s.p1 = some p) (hw : ph.getD i none = some w)
    (hq : s.p2 = none) (hlt : p.1 < i) :
    p2_step_long ph s i = { s with p2 := some (i, w) } := by
  unfold p2_step_long
  rw [hp, hw, hq]
  dsimp only
  rw [if_pos hlt]

theorem p2_step_long_late (ph : List (Option ℚ)) (s : TrackState) (i : Nat)
    (p : Nat × ℚ) (w : ℚ) (hp : s.p1 = some p) (hw : ph.getD i none = some w)
    (hq : s.p2 = none) (hlt : ¬p.1 < i) :
    p2_step_long ph s i = s := by
  unfold p2_step_long
  rw [hp, hw, hq]
  dsimp only
  rw [if_neg hlt]

theorem p2_step_long_p2some (ph : List (Option ℚ)) (s : TrackState) (i : Nat)
    (q : Nat × ℚ) (hq : s.p2 = some q) : p2_step_long ph s i = s := by
  obtain ⟨sp1, sp2, sp3⟩ := s
  unfold p2_step_long
  rcases sp1 with _ | p <;> rcases hw : ph.getD i none with _ | w <;> simp_all

theorem p3_step_short_none (ph : List (Option ℚ)) (s : TrackState) (i : Nat)
    (h : ph.getD i none = none) : p3_step_short ph s i = s := by
  obtain ⟨sp1, sp2, sp3⟩ := s
  unfold p3_step_short
  rw [h]
  rcases sp2 with _ | q <;> rfl

theorem p3_step_short_p3some (ph : List (Option ℚ)) (s : TrackState) (i : Nat)
    (r : Nat × ℚ) (h : s.p3 = some r) : p3_step_short ph s i = s := by
  obtain ⟨sp1, sp2, sp3⟩ := s
  unfold p3_step_short
  rcases sp2 with _ | q <;> rcases hv : ph.getD i none with _ | v <;> simp_all

theorem p3_step_short_assign (ph : List (Option ℚ)) (s : TrackState) (i : Nat)
    (p q : Nat × ℚ) (v : ℚ) (hp : s.p1 = some p) (hq : s.p2 = some q)
    (hv : ph.getD i none = some v) (hr : s.p3 = none) (h1 : q.1 < i) (h2 : v < p.2) :
    p3_step_short ph s i = { s with p3 := some (i, v) } := by
  unfold p3_step_short
  rw [hp, hq, hv, hr]
  dsimp only
  rw [if_pos (by simp [h1, h2])]

theorem p3_step_short_skip (ph : List (Option ℚ)) (s : TrackState) (i : Nat)
    (p q : Nat × ℚ) (v : ℚ) (hp : s.p1 = some p) (hq : s.p2 = some q)
    (hv : ph.getD i none = some v) (hr : s.p3 = none) (h12 : ¬(q.1 < i ∧ v < p.2)) :
    p3_step_short ph s i = s := by
  unfold p3_step_short
  rw [hp, hq, hv, hr]
  dsimp only
  rw [if_neg (by simpa using h12)]

theorem p3_step_long_none (pl : List (Option ℚ)) (s : TrackState) (i : Nat)
    (h : pl.getD i none = none) : p3_step_long pl s i = s := by
  obtain ⟨sp1, sp2, sp3⟩ := s
  unfold p3_step_long
  rw [h]
  rcases sp2 with _ | q <;> rfl

theorem p3_step_long_p3some (pl : List (Option ℚ)) (s : TrackState) (i : Nat)
    (r : Nat × ℚ) (h : s.p3 = some r) : p3_step_long pl s i = s := by
  obtain ⟨sp1, sp2, sp3⟩ := s
  unfold p3_step_long
  rcases sp2 with _ | q <;> rcases hv : pl.getD i none with _ | v <;> simp_all

theorem p3_step_long_assign (pl : List (Option ℚ)) (s : TrackState) (i : Nat)
    (p q : Nat × ℚ) (v : ℚ) (hp : s.p1 = some p) (hq : s.p2 = some q)
    (hv : pl.getD i none = some v) (hr : s.p3 = none) (h1 : q.1 < i) (h2 : p.2 < v) :
    p3_step_long pl s i = { s with p3 := some (i, v) } := by
  unfold p3_step_long
  rw [hp, hq, hv, hr]
  dsimp only
  rw [if_pos (by simp [h1, h2])]

theorem p3_step_long_skip (pl : List (Option ℚ)) (s : TrackState) (i : Nat)
    (p q : Nat × ℚ) (v : ℚ) (hp : s.p1 = some p) (hq : s.p2 = some q)
    (hv : pl.getD i none = some v) (hr : s.p3 = none) (h12 : ¬(q.1 < i ∧ p.2 < v)) :
    p3_step_long pl s i = s := by
  unfold p3_step_long
  rw [hp, hq, hv, hr]
  dsimp only
  rw [if_neg (by simpa using h12)]

theorem findSome?_singleton {α β : Type} (f : α → Option β) (a : α) :
    List.findSome? f [a] = f a := by
  rcases hf : f a with _ | b <;> simp [List.findSome?_cons, hf]

theorem first_pivot_after_succ (piv : List (Option ℚ)) (j n : Nat) :
    first_pivot_after piv j (n + 1) =
      (first_pivot_after piv j n).or
        (if j < n then (piv.getD n none).map fun v => (n, v) else none) := by
  unfold first_pivot_after
  rw [List.range_succ, List.findSome?_append, findSome?_singleton]

theorem first_pivot_after_below_succ (piv : List (Option ℚ)) (j n : Nat) (bound : ℚ) :
    first_pivot_after_below piv j (n + 1) bound =
      (first_pivot_after_below piv j n bound).or
        (if j < n then
          (piv.getD n none).bind fun v => if v < bound then some (n, v) else none
         else none) := by
  unfold first_pivot_after_below
  rw [List.range_succ, List.findSome?_append, findSome?_singleton]

theorem first_pivot_after_above_succ (piv : List (Option ℚ)) (j n : Nat) (bound : ℚ) :
    first_pivot_after_above piv j (n + 1) bound =
      (first_pivot_after_above piv j n bound).or
        (if j < n then
          (piv.getD n none).bind fun v => if bound < v then some (n, v) else none
         else none) := by
  unfold first_pivot_after_above
  rw [List.range_succ, List.findSome?_append, findSome?_singleton]

theorem first_pivot_after_none_of_le (piv : List (Option ℚ)) (j n : Nat) (h : n ≤ j + 1) :
    first_pivot_after piv j n = none := by
  unfold first_pivot_after
  rw [List.findSome?_eq_none_iff]
  intro i hi
  rw [if_neg (by simp at hi; omega)]

theorem first_pivot_after_below_none_of_le (piv : List (Option ℚ)) (j n : Nat) (bound : ℚ)
    (h : n ≤ j + 1) : first_pivot_after_below piv j n bound = none := by
  unfold first_pivot_after_below
  rw [List.findSome?_eq_none_iff]
  intro i hi
  rw [if_neg (by simp at hi; omega)]

theorem first_pivot_after_above_none_of_le (piv : List (Option ℚ)) (j n : Nat) (bound : ℚ)
    (h : n ≤ j + 1) : first_pivot_after_above piv j n bound = none := by
  unfold first_pivot_after_above
  rw [List.findSome?_eq_none_iff]
  intro i hi
  rw [if_neg (by simp at hi; omega)]

theorem fresh_state_inv_short (ph pl : List (Option ℚ)) (n : Nat) (v : ℚ) :
    (((⟨some (n, v), none, none⟩ : TrackState)).p1 = none →
      (⟨some (n, v), none, none⟩ : TrackState) = ⟨none, none, none⟩) ∧
    (((⟨some (n, v), none, none⟩ : TrackState)).p2 = none →
      ((⟨some (n, v), none, none⟩ : TrackState)).p3 = none) ∧
    (∀ p', ((⟨some (n, v), none, none⟩ : TrackState)).p1 = some p' →
      ((⟨some (n, v), none, none⟩ : TrackState)).p2 = first_pivot_after pl p'.1 (n + 1)) ∧
    (∀ p' q', ((⟨some (n, v), none, none⟩ : TrackState)).p1 = some p' →
      ((⟨some (n, v), none, none⟩ : TrackState)).p2 = some q' →
      ((⟨some (n, v), none, none⟩ : TrackState)).p3 =
        first_pivot_after_below ph q'.1 (n + 1) p'.2) := by
  refine ⟨?_, ?_, ?_, ?_⟩
  · intro h
    cases h
  · intro h
    rfl
  · intro p' hp'
    injection hp' with hpp
    subst hpp
    exact (first_pivot_after_none_of_le pl n (n + 1) (le_refl _)).symm
  · intro p' q' hp' hq'
    cases hq'

theorem fresh_state_inv_long (ph pl : List (Option ℚ)) (n : Nat) (v : ℚ) :
    (((⟨some (n, v), none, none⟩ : TrackState)).p1 = none →
      (⟨some (n, v), none, none⟩ : TrackState) = ⟨none, none, none⟩) ∧
    (((⟨some (n, v), none, none⟩ : TrackState)).p2 = none →
      ((⟨some (n, v), none, none⟩ : TrackState)).p3 = none) ∧
    (∀ p', ((⟨some (n, v), none, none⟩ : TrackState)).p1 = some p' →
      ((⟨some (n, v), none, none⟩ : TrackState)).p2 = first_pivot_after ph p'.1 (n + 1)) ∧
    (∀ p' q', ((⟨some (n, v), none, none⟩ : TrackState)).p1 = some p' →
      ((⟨some (n, v), none, none⟩ : TrackState)).p2 = some q' →
      ((⟨some (n, v), none, none⟩ : TrackState)).p3 =
        first_pivot_after_above pl q'.1 (n + 1) p'.2) := by
  refine ⟨?_, ?_, ?_, ?_⟩
  · intro h
    cases h
  · intro h
    rfl
  · intro p' hp'
    injection hp' with hpp
    subst hpp
    exact (first_pivot_after_none_of_le ph n (n + 1) (le_refl _)).symm
  · intro p' q' hp' hq'
    cases hq'

theorem step_p3_part_short (ph pl : List (Option ℚ)) (n : Nat) (s : TrackState)
    (v : ℚ) (p q : Nat × ℚ) (hv : ph.getD n none = some v)
    (hp1 : s.p1 = some p) (hp2 : s.p2 = some q)
    (ih3 : s.p2 = first_pivot_after pl p.1 n)
    (ih4 : s.p3 = first_pivot_after_below ph q.1 n p.2) :
    ((p3_step_short ph s n).p1 = none → p3_step_short ph s n = ⟨none, none, none⟩) ∧
    ((p3_step_short ph s n).p2 = none → (p3_step_short ph s n).p3 = none) ∧
    (∀ p', (p3_step_short ph s n).p1 = some p' →
      (p3_step_short ph s n).p2 = first_pivot_after pl p'.1 (n + 1)) ∧
    (∀ p' q', (p3_step_short ph s n).p1 = some p' →
      (p3_step_short ph s n).p2 = some q' →
      (p3_step_short ph s n).p3 = first_pivot_after_below ph q'.1 (n + 1) p'.2) := by
  have e1 : (p3_step_short ph s n).p1 = some p := by rw [p3_step_short_p1]; exact hp1
  have e2 : (p3_step_short ph s n).p2 = some q := by rw [p3_step_short_p2]; exact hp2
  refine ⟨?_, ?_, ?_, ?_⟩
  · intro h; rw [e1] at h; cases h
  · intro h; rw [e2] at h; cases h
  · intro p' hp'
    rw [e1] at hp'
    injection hp' with hpp
    subst hpp
    rw [e2, first_pivot_after_succ, ← ih3, hp2]
    rfl
  · intro p' q' hp' hq'
    rw [e1] at hp'
    injection hp' with hpp
    subst hpp
    rw [e2] at hq'
    injection hq' with hqq
    subst hqq
    rw [first_pivot_after_below_succ, ← ih4]
    rcases hp3 : s.p3 with _ | r
    · by_cases hc : q.1 < n ∧ v < p.2
      · rw [p3_step_short_assign ph s n p q v hp1 hp2 hv hp3 hc.1 hc.2,
          Option.none_or, if_pos hc.1, hv]
        simp [hc.2]
      · rw [p3_step_short_skip ph s n p q v hp1 hp2 hv hp3 hc, hp3, Option.none_or]
        by_cases h1 : q.1 < n
        · rw [if_pos h1, hv]
          have h2 : ¬v < p.2 := fun hvp => hc ⟨h1, hvp⟩
          simp [h2, hp3]
        · rw [if_neg h1]
    · rw [p3_step_short_p3some ph s n r hp3, hp3]
      rfl

theorem step_p3_part_long (ph pl : List (Option ℚ)) (n : Nat) (s : TrackState)
    (v : ℚ) (p q : Nat × ℚ) (hv : pl.getD n none = some v)
    (hp1 : s.p1 = some p) (hp2 : s.p2 = some q)
    (ih3 : s.p2 = first_pivot_after ph p.1 n)
    (ih4 : s.p3 = first_pivot_after_above pl q.1 n p.2) :
    ((p3_step_long pl s n).p1 = none → p3_step_long pl s n = ⟨none, none, none⟩) ∧
    ((p3_step_long pl s n).p2 = none → (p3_step_long pl s n).p3 = none) ∧
    (∀ p', (p3_step_long pl s n).p1 = some p' →
      (p3_step_long pl s n).p2 = first_pivot_after ph p'.1 (n + 1)) ∧
    (∀ p' q', (p3_step_long pl s n).p1 = some p' →
      (p3_step_long pl s n).p2 = some q' →
      (p3_step_long pl s n).p3 = first_pivot_after_above pl q'.1 (n + 1) p'.2) := by
  have e1 : (p3_step_long pl s n).p1 = some p := by rw [p3_step_long_p1]; exact hp1
  have e2 : (p3_step_long pl s n).p2 = some q := by rw [p3_step_long_p2]; exact hp2
  refine ⟨?_, ?_, ?_, ?_⟩
  · intro h; rw [e1] at h; cases h
  · intro h; rw [e2] at h; cases h
  · intro p' hp'
    rw [e1] at hp'
    injection hp' with hpp
    subst hpp
    rw [e2, first_pivot_after_succ, ← ih3, hp2]
    rfl
  · intro p' q' hp' hq'
    rw [e1] at hp'
    injection hp' with hpp
    subst hpp
    rw [e2] at hq'
    injection hq' with hqq
    subst hqq
    rw [first_pivot_after_above_succ, ← ih4]
    rcases hp3 : s.p3 with _ | r
    · by_cases hc : q.1 < n ∧ p.2 < v
      · rw [p3_step_long_assign pl s n p q v hp1 hp2 hv hp3 hc.1 hc.2,
          Option.none_or, if_pos hc.1, hv]
        simp [hc.2]
      · rw [p3_step_long_skip pl s n p q v hp1 hp2 hv hp3 hc, hp3, Option.none_or]
        by_cases h1 : q.1 < n
        · rw [if_pos h1, hv]
          have h2 : ¬p.2 < v := fun hvp => hc ⟨h1, hvp⟩
          simp [h2, hp3]
        · rw [if_neg h1]
    · rw [p3_step_long_p3some pl s n r hp3, hp3]
      rfl

theorem with_p2_p1 (s : TrackState) (x : Option (Nat × ℚ)) :
    ({ s with p2 := x }).p1 = s.p1 := rfl

theorem with_p2_p2 (s : TrackState) (x : Option (Nat × ℚ)) :
    ({ s with p2 := x }).p2 = x := rfl

theorem with_p2_p3 (s : TrackState) (x : Option (Nat × ℚ)) :
    ({ s with p2 := x }).p3 = s.p3 := rfl

theorem p1_step_short_reset (ph : List (Option ℚ)) (s : TrackState) (i : Nat) (v : ℚ)
    (p : Nat × ℚ) (h : ph.getD i none = some v) (hp : s.p1 = some p) (hlt : p.2 < v) :
    p1_step_short ph s i = ⟨some (i, v), none, none⟩ := by
  unfold p1_step_short
  rw [h, hp]
  dsimp only
  rw [if_pos hlt]

theorem p1_step_long_reset (pl : List (Option ℚ)) (s : TrackState) (i : Nat) (v : ℚ)
    (p : Nat × ℚ) (h : pl.getD i none = some v) (hp : s.p1 = some p) (hlt : v < p.2) :
    p1_step_long pl s i = ⟨some (i, v), none, none⟩ := by
  unfold p1_step_long
  rw [h, hp]
  dsimp only
  rw [if_pos hlt]

theorem scan_short_inv (ph pl : List (Option ℚ)) : ∀ n,
    ((struct_scan_short ph pl n).p1 = none → struct_scan_short ph pl n = ⟨none, none, none⟩) ∧
    ((struct_scan_short ph pl n).p2 = none → (struct_scan_short ph pl n).p3 = none) ∧
    (∀ p, (struct_scan_short ph pl n).p1 = some p →
      (struct_scan_short ph pl n).p2 = first_pivot_after pl p.1 n) ∧
    (∀ p q, (struct_scan_short ph pl n).p1 = some p →
      (struct_scan_short ph pl n).p2 = some q →
      (struct_scan_short ph pl n).p3 = first_pivot_after_below ph q.1 n p.2)
  | 0 => by
    refine ⟨fun _ => rfl, fun _ => rfl, ?_, ?_⟩
    · intro p hp
      simp [struct_scan_short] at hp
    · intro p q hp hq
      simp [struct_scan_short] at hp
  | n + 1 => by
    obtain ⟨ih1, ih2, ih3, ih4⟩ := scan_short_inv ph pl n
    rw [struct_scan_short_succ]
    set s := struct_scan_short ph pl n with hsdef
    unfold upd_short
    rcases hv : ph.getD n none with _ | v
    · rw [p1_step_short_none ph s n hv]
      rcases hw : pl.getD n none with _ | w
      · rw [p2_step_short_none pl s n hw, p3_step_short_none ph s n hv]
        refine ⟨ih1, ih2, ?_, ?_⟩
        · intro p' hp'
          rw [first_pivot_after_succ, ← ih3 p' hp', hw]
          simp
        · intro p' q' hp' hq'
          rw [first_pivot_after_below_succ, ← ih4 p' q' hp' hq', hv]
          simp
      · rcases hp1 : s.p1 with _ | p
        · rw [p2_step_short_p1none pl s n hp1, p3_step_short_none ph s n hv]
          refine ⟨ih1, ih2, ?_, ?_⟩
          · intro p' hp'
            rw [hp1] at hp'
            cases hp'
          · intro p' q' hp' hq'
            rw [hp1] at hp'
            cases hp'
        · rcases hp2 : s.p2 with _ | q
          · by_cases hl2 : p.1 < n
            · rw [p2_step_short_assign pl s n p w hp1 hw hp2 hl2,
                p3_step_short_none ph _ n hv]
              refine ⟨?_, ?_, ?_, ?_⟩
              · intro h
                rw [with_p2_p1, hp1] at h
                cases h
              · intro h
                rw [with_p2_p2] at h
                cases h
              · intro p' hp'
                rw [with_p2_p1, hp1] at hp'
                injection hp' with hpp
                subst hpp
                rw [with_p2_p2, first_pivot_after_succ, ← ih3 p hp1, hp2,
                  if_pos hl2, hw]
                rfl
              · intro p' q' hp' hq'
                rw [with_p2_p1, hp1] at hp'
                injection hp' with hpp
                subst hpp
                rw [with_p2_p2] at hq'
                injection hq' with hqq
                subst hqq
                rw [with_p2_p3, ih2 hp2]
                exact (first_pivot_after_below_none_of_le ph n (n + 1) p.2 (le_refl _)).symm
            · rw [p2_step_short_late pl s n p w hp1 hw hp2 hl2,
                p3_step_short_none ph s n hv]
              refine ⟨ih1, ih2, ?_, ?_⟩
              · intro p' hp'
                rw [hp1] at hp'
                injection hp' with hpp
                subst hpp
                rw [first_pivot_after_succ, ← ih3 p hp1, if_neg hl2]
                simp
              · intro p' q' hp' hq'
                rw [hp2] at hq'
                cases hq'
          · rw [p2_step_short_p2some pl s n q hp2, p3_step_short_none ph s n hv]
            refine ⟨ih1, ih2, ?_, ?_⟩
            · intro p' hp'
              rw [first_pivot_after_succ, ← ih3 p' hp', hp2]
              rfl
            · intro p' q' hp' hq'
              rw [first_pivot_after_below_succ, ← ih4 p' q' hp' hq', hv]
              simp
    · rcases hp1 : s.p1 with _ | p
      · rw [p1_step_short_init ph s n v hv hp1, p2_step_short_fresh,
          p3_step_short_p2none ph _ n rfl]
        exact fresh_state_inv_short ph pl n v
      · by_cases hlt : p.2 < v
        · rw [p1_step_short_reset ph s n v p hv hp1 hlt, p2_step_short_fresh,
            p3_step_short_p2none ph _ n rfl]
          exact fresh_state_inv_short ph pl n v
        · rw [p1_step_short_keep ph s n v p hv hp1 hlt]
          rcases hp2 : s.p2 with _ | q
          · have hp3 : s.p3 = none := ih2 hp2
            rcases hw : pl.getD n none with _ | w
            · rw [p2_step_short_none pl s n hw, p3_step_short_p2none ph s n hp2]
              refine ⟨ih1, ih2, ?_, ?_⟩
              · intro p' hp'
                rw [first_pivot_after_succ, ← ih3 p' hp', hw]
                simp
              · intro p' q' hp' hq'
                rw [hp2] at hq'
                cases hq'
            · by_cases hl2 : p.1 < n
              · rw [p2_step_short_assign pl s n p w hp1 hw hp2 hl2,
                  p3_step_short_skip ph { s with p2 := some (n, w) } n p (n, w) v
                    hp1 rfl hv hp3 (by simp)]
                refine ⟨?_, ?_, ?_, ?_⟩
                · intro h
                  rw [with_p2_p1, hp1] at h
                  cases h
                · intro h
                  rw [with_p2_p2] at h
                  cases h
                · intro p' hp'
                  rw [with_p2_p1, hp1] at hp'
                  injection hp' with hpp
                  subst hpp
                  rw [with_p2_p2, first_pivot_after_succ, ← ih3 p hp1, hp2,
                    if_pos hl2, hw]
                  rfl
                · intro p' q' hp' hq'
                  rw [with_p2_p1, hp1] at hp'
                  injection hp' with hpp
                  subst hpp
                  rw [with_p2_p2] at hq'
                  injection hq' with hqq
                  subst hqq
                  rw [with_p2_p3, hp3]
                  exact (first_pivot_after_below_none_of_le ph n (n + 1) p.2 (le_refl _)).symm
              · rw [p2_step_short_late pl s n p w hp1 hw hp2 hl2,
                  p3_step_short_p2none ph s n hp2]
                refine ⟨ih1, ih2, ?_, ?_⟩
                · intro p' hp'
                  rw [hp1] at hp'
                  injection hp' with hpp
                  subst hpp
                  rw [first_pivot_after_succ, ← ih3 p hp1, if_neg hl2]
                  simp
                · intro p' q' hp' hq'
                  rw [hp2] at hq'
                  cases hq'
          · rw [p2_step_short_p2some pl s n q hp2]
            exact step_p3_part_short ph pl n s v p q hv hp1 hp2 (ih3 p hp1) (ih4 p q hp1 hp2)

theorem scan_long_inv (ph pl : List (Option ℚ)) : ∀ n,
    ((struct_scan_long ph pl n).p1 = none → struct_scan_long ph pl n = ⟨none, none, none⟩) ∧
    ((struct_scan_long ph pl n).p2 = none → (struct_scan_long ph pl n).p3 = none) ∧
    (∀ p, (struct_scan_long ph pl n).p1 = some p →
      (struct_scan_long ph pl n).p2 = first_pivot_after ph p.1 n) ∧
    (∀ p q, (struct_scan_long ph pl n).p1 = some p →
      (struct_scan_long ph pl n).p2 = some q →
      (struct_scan_long ph pl n).p3 = first_pivot_after_above pl q.1 n p.2)
  | 0 => by
    refine ⟨fun _ => rfl, fun _ => rfl, ?_, ?_⟩
    · intro p hp
      simp [struct_scan_long] at hp
    · intro p q hp hq
      simp [struct_scan_long] at hp
  | n + 1 => by
    obtain ⟨ih1, ih2, ih3, ih4⟩ := scan_long_inv ph pl n
    rw [struct_scan_long_succ]
    set s := struct_scan_long ph pl n with hsdef
    unfold upd_long
    rcases hv : pl.getD n none with _ | v
    · rw [p1_step_long_none pl s n hv]
      rcases hw : ph.getD n none with _ | w
      · rw [p2_step_long_none ph s n hw, p3_step_long_none pl s n hv]
        refine ⟨ih1, ih2, ?_, ?_⟩
        · intro p' hp'
          rw [first_pivot_after_succ, ← ih3 p' hp', hw]
          simp
        · intro p' q' hp' hq'
          rw [first_pivot_after_above_succ, ← ih4 p' q' hp' hq', hv]
          simp
      · rcases hp1 : s.p1 with _ | p
        · rw [p2_step_long_p1none ph s n hp1, p3_step_long_none pl s n hv]
          refine ⟨ih1, ih2, ?_, ?_⟩
          · intro p' hp'
            rw [hp1] at hp'
            cases hp'
          · intro p' q' hp' hq'
            rw [hp1] at hp'
            cases hp'
        · rcases hp2 : s.p2 with _ | q
          · by_cases hl2 : p.1 < n
            · rw [p2_step_long_assign ph s n p w hp1 hw hp2 hl2,
                p3_step_long_none pl _ n hv]
              refine ⟨?_, ?_, ?_, ?_⟩
              · intro h
                rw [with_p2_p1, hp1] at h
                cases h
              · intro h
                rw [with_p2_p2] at h
                cases h
              · intro p' hp'
                rw [with_p2_p1, hp1] at hp'
                injection hp' with hpp
                subst hpp
                rw [with_p2_p2, first_pivot_after_succ, ← ih3 p hp1, hp2,
                  if_pos hl2, hw]
                rfl
              · intro p' q' hp' hq'
                rw [with_p2_p1, hp1] at hp'
                injection hp' with hpp
                subst hpp
                rw [with_p2_p2] at hq'
                injection hq' with hqq
                subst hqq
                rw [with_p2_p3, ih2 hp2]
                exact (first_pivot_after_above_none_of_le pl n (n + 1) p.2 (le_refl _)).symm
            · rw [p2_step_long_late ph s n p w hp1 hw hp2 hl2,
                p3_step_long_none pl s n hv]
              refine ⟨ih1, ih2, ?_, ?_⟩
              · intro p' hp'
                rw [hp1] at hp'
                injection hp' with hpp
                subst hpp
                rw [first_pivot_after_succ, ← ih3 p hp1, if_neg hl2]
                simp
              · intro p' q' hp' hq'
                rw [hp2] at hq'
                cases hq'
          · rw [p2_step_long_p2some ph s n q hp2, p3_step_long_none pl s n hv]
            refine ⟨ih1, ih2, ?_, ?_⟩
            · intro p' hp'
              rw [first_pivot_after_succ, ← ih3 p' hp', hp2]
              rfl
            · intro p' q' hp' hq'
              rw [first_pivot_after_above_succ, ← ih4 p' q' hp' hq', hv]
              simp
    · rcases hp1 : s.p1 with _ | p
      · rw [p1_step_long_init pl s n v hv hp1, p2_step_long_fresh,
          p3_step_long_p2none pl _ n rfl]
        exact fresh_state_inv_long ph pl n v
      · by_cases hlt : v < p.2
        · rw [p1_step_long_reset pl s n v p hv hp1 hlt, p2_step_long_fresh,
            p3_step_long_p2none pl _ n rfl]
          exact fresh_state_inv_long ph pl n v
        · rw [p1_step_long_keep pl s n v p hv hp1 hlt]
          rcases hp2 : s.p2 with _ | q
          · have hp3 : s.p3 = none := ih2 hp2
            rcases hw : ph.getD n none with _ | w
            · rw [p2_step_long_none ph s n hw, p3_step_long_p2none pl s n hp2]
              refine ⟨ih1, ih2, ?_, ?_⟩
              · intro p' hp'
                rw [first_pivot_after_succ, ← ih3 p' hp', hw]
                simp
              · intro p' q' hp' hq'
                rw [hp2] at hq'
                cases hq'
            · by_cases hl2 : p.1 < n
              · rw [p2_step_long_assign ph s n p w hp1 hw hp2 hl2,
                  p3_step_long_skip pl { s with p2 := some (n, w) } n p (n, w) v
                    hp1 rfl hv hp3 (by simp)]
                refine ⟨?_, ?_, ?_, ?_⟩
                · intro h
                  rw [with_p2_p1, hp1] at h
                  cases h
                · intro h
                  rw [with_p2_p2] at h
                  cases h
                · intro p' hp'
                  rw [with_p2_p1, hp1] at hp'
                  injection hp' with hpp
                  subst hpp
                  rw [with_p2_p2, first_pivot_after_succ, ← ih3 p hp1, hp2,
                    if_pos hl2, hw]
                  rfl
                · intro p' q' hp' hq'
                  rw [with_p2_p1, hp1] at hp'
                  injection hp' with hpp
                  subst hpp
                  rw [with_p2_p2] at hq'
                  injection hq' with hqq
                  subst hqq
                  rw [with_p2_p3, hp3]
                  exact (first_pivot_after_above_none_of_le pl n (n + 1) p.2 (le_refl _)).symm
              · rw [p2_step_long_late ph s n p w hp1 hw hp2 hl2,
                  p3_step_long_p2none pl s n hp2]
                refine ⟨ih1, ih2, ?_, ?_⟩
                · intro p' hp'
                  rw [hp1] at hp'
                  injection hp' with hpp
                  subst hpp
                  rw [first_pivot_after_succ, ← ih3 p hp1, if_neg hl2]
                  simp
                · intro p' q' hp' hq'
                  rw [hp2] at hq'
                  cases hq'
          · rw [p2_step_long_p2some ph s n q hp2]
            exact step_p3_part_long ph pl n s v p q hv hp1 hp2 (ih3 p hp1) (ih4 p q hp1 hp2)

/-- C5 counterexample: in `c5Fix` (SHORT branch) the first pivot high after
P2 (index 3) is the pivot at index 5 with price `50` equal to P1, but the
tracker's `p3` is the LATER pivot `(7, 40)`: the equal-to-P1 pivot is skipped,
refuting "p3 is the first pivot of p1's kind whose timestamp is after p2's". -/
theorem c5_counterexample :
    (struct_scan_short (pivots_high c5Fix 1 1) (pivots_low c5Fix 1 1) 20).p1 = some (1, 50) ∧
    (struct_scan_short (pivots_high c5Fix 1 1) (pivots_low c5Fix 1 1) 20).p2 = some (3, 3) ∧
    (struct_scan_short (pivots_high c5Fix 1 1) (pivots_low c5Fix 1 1) 20).p3 = some (7, 40) ∧
    first_pivot_after (pivots_high c5Fix 1 1) 3 20 = some (5, 50) ∧
    (some ((7 : Nat), (40 : ℚ)) ≠ some ((5 : Nat), (50 : ℚ))) := by
  refine ⟨by decide, by decide, by decide, by decide, by decide⟩

/-- C5 (amended): for the current P1 generation, `p2` is the first pivot of
the kind opposite to `p1` strictly after `p1`'s index, and `p3` is the first
pivot of `p1`'s kind strictly after `p2` whose price is strictly on the far
side of `p1` (below `p1` for SHORT, above for LONG) — a pivot exactly equal
to `p1`'s price is skipped; once set, neither `p2` nor `p3` is overwritten
while `p1` is unchanged — only the P1-reset rule clears them. -/
theorem c5_p2_p3_rule (ph pl : List (Option ℚ)) (n : Nat) :
    (∀ p, (struct_scan_short ph pl n).p1 = some p →
      (struct_scan_short ph pl n).p2 = first_pivot_after pl p.1 n) ∧
    (∀ p q, (struct_scan_short ph pl n).p1 = some p →
      (struct_scan_short ph pl n).p2 = some q →
      (struct_scan_short ph pl n).p3 = first_pivot_after_below ph q.1 n p.2) ∧
    (∀ p, (struct_scan_long ph pl n).p1 = some p →
      (struct_scan_long ph pl n).p2 = first_pivot_after ph p.1 n) ∧
    (∀ p q, (struct_scan_long ph pl n).p1 = some p →
      (struct_scan_long ph pl n).p2 = some q →
      (struct_scan_long ph pl n).p3 = first_pivot_after_above pl q.1 n p.2) ∧
    (∀ p x, (struct_scan_short ph pl n).p1 = some p →
      (struct_scan_short ph pl (n + 1)).p1 = some p →
      (struct_scan_short ph pl n).p2 = some x →
      (struct_scan_short ph pl (n + 1)).p2 = some x) ∧
    (∀ p x y, (struct_scan_short ph pl n).p1 = some p →
      (struct_scan_short ph pl (n + 1)).p1 = some p →
      (struct_scan_short ph pl n).p2 = some x →
      (struct_scan_short ph pl n).p3 = some y →
      (struct_scan_short ph pl (n + 1)).p3 = some y) ∧
    (∀ p x, (struct_scan_long ph pl n).p1 = some p →
      (struct_scan_long ph pl (n + 1)).p1 = some p →
      (struct_scan_long ph pl n).p2 = some x →
      (struct_scan_long ph pl (n + 1)).p2 = some x) ∧
    (∀ p x y, (struct_scan_long ph pl n).p1 = some p →
      (struct_scan_long ph pl (n + 1)).p1 = some p →
      (struct_scan_long ph pl n).p2 = some x →
      (struct_scan_long ph pl n).p3 = some y →
      (struct_scan_long ph pl (n + 1)).p3 = some y) := by
  obtain ⟨x1, x2, s3, s4⟩ := scan_short_inv ph pl n
  obtain ⟨y1, y2, s3', s4'⟩ := scan_short_inv ph pl (n + 1)
  obtain ⟨z1, z2, l3, l4⟩ := scan_long_inv ph pl n
  obtain ⟨w1, w2, l3', l4'⟩ := scan_long_inv ph pl (n + 1)
  refine ⟨s3, s4, l3, l4, ?_, ?_, ?_, ?_⟩
  · intro p x h1 h1' h2
    rw [s3' p h1', first_pivot_after_succ, ← s3 p h1, h2]
    rfl
  · intro p x y h1 h1' h2 h3
    have h2' : (struct_scan_short ph pl (n + 1)).p2 = some x := by
      rw [s3' p h1', first_pivot_after_succ, ← s3 p h1, h2]
      rfl
    rw [s4' p x h1' h2', first_pivot_after_below_succ, ← s4 p x h1 h2, h3]
    rfl
  · intro p x h1 h1' h2
    rw [l3' p h1', first_pivot_after_succ, ← l3 p h1, h2]
    rfl
  · intro p x y h1 h1' h2 h3
    have h2' : (struct_scan_long ph pl (n + 1)).p2 = some x := by
      rw [l3' p h1', first_pivot_after_succ, ← l3 p h1, h2]
      rfl
    rw [l4' p x h1' h2', first_pivot_after_above_succ, ← l4 p x h1 h2, h3]
    rfl

/-- C5 witness: the amended rule applied at `c5Fix` (SHORT) and `c5LongFix`
(LONG), including the no-overwrite clauses across step 10 → 11. -/
theorem c5_p2_p3_rule_witness :
    (struct_scan_short (pivots_high c5Fix 1 1) (pivots_low c5Fix 1 1) 20).p2 =
      first_pivot_after (pivots_low c5Fix 1 1) 1 20 ∧
    (struct_scan_short (pivots_high c5Fix 1 1) (pivots_low c5Fix 1 1) 20).p3 =
      first_pivot_after_below (pivots_high c5Fix 1 1) 3 20 50 ∧
    (struct_scan_long (pivots_high c5LongFix 1 1) (pivots_low c5LongFix 1 1) 20).p2 =
      first_pivot_after (pivots_high c5LongFix 1 1) 1 20 ∧
    (struct_scan_long (pivots_high c5LongFix 1 1) (pivots_low c5LongFix 1 1) 20).p3 =
      first_pivot_after_above (pivots_low c5LongFix 1 1) 3 20 50 ∧
    (struct_scan_short (pivots_high c5Fix 1 1) (pivots_low c5Fix 1 1) 11).p2 = some (3, 3) ∧
    (struct_scan_short (pivots_high c5Fix 1 1) (pivots_low c5Fix 1 1) 11).p3 = some (7, 40) ∧
    (struct_scan_long (pivots_high c5LongFix 1 1) (pivots_low c5LongFix 1 1) 11).p2 =
      some (3, 97) ∧
    (struct_scan_long (pivots_high c5LongFix 1 1) (pivots_low c5LongFix 1 1) 11).p3 =
      some (7, 60) :=
  ⟨(c5_p2_p3_rule (pivots_high c5Fix 1 1) (pivots_low c5Fix 1 1) 20).1
      (1, 50) (by decide),
   (c5_p2_p3_rule (pivots_high c5Fix 1 1) (pivots_low c5Fix 1 1) 20).2.1
      (1, 50) (3, 3) (by decide) (by decide),
   (c5_p2_p3_rule (pivots_high c5LongFix 1 1) (pivots_low c5LongFix 1 1) 20).2.2.1
      (1, 50) (by decide),
   (c5_p2_p3_rule (pivots_high c5LongFix 1 1) (pivots_low c5LongFix 1 1) 20).2.2.2.1
      (1, 50) (3, 97) (by decide) (by decide),
   (c5_p2_p3_rule (pivots_high c5Fix 1 1) (pivots_low c5Fix 1 1) 10).2.2.2.2.1
      (1, 50) (3, 3) (by decide) (by decide) (by decide),
   (c5_p2_p3_rule (pivots_high c5Fix 1 1) (pivots_low c5Fix 1 1) 10).2.2.2.2.2.1
      (1, 50) (3, 3) (7, 40) (by decide) (by decide) (by decide) (by decide),
   (c5_p2_p3_rule (pivots_high c5LongFix 1 1) (pivots_low c5LongFix 1 1) 10).2.2.2.2.2.2.1
      (1, 50) (3, 97) (by decide) (by decide) (by decide),
   (c5_p2_p3_rule (pivots_high c5LongFix 1 1) (pivots_low c5LongFix 1 1) 10).2.2.2.2.2.2.2
      (1, 50) (3, 97) (7, 60) (by decide) (by decide) (by decide) (by decide)⟩

/-- C7 (confirmed): the BOS test compares the candle's close against
`p2.price` with `epsilon = |p2.price| * BOS_MIN_PCT` (`src/main.py` lines
604-609 and 649-654); with `BOS_MIN_PCT = 0`, a close exactly equal to
`p2.price` does NOT trigger a break, while any close strictly beyond it in
the breakout direction does. -/
theorem c7_bos_epsilon (seq : List Candle) (s : TrackState) (i : Nat) (q : Nat × ℚ)
    (hq : s.p2 = some q)
    (hgate : (match s.p3 with | some r => r.1 | none => q.1) < i) :
    (∀ min_pct : ℚ,
      (bos_check_short seq min_pct s i).isSome ↔ closeAt seq i < q.2 - |q.2| * min_pct) ∧
    (∀ min_pct : ℚ,
      (bos_check_long seq min_pct s i).isSome ↔ q.2 + |q.2| * min_pct < closeAt seq i) ∧
    ((bos_check_short seq 0 s i).isSome ↔ closeAt seq i < q.2) ∧
    ((bos_check_long seq 0 s i).isSome ↔ q.2 < closeAt seq i) ∧
    (closeAt seq i = q.2 →
      bos_check_short seq 0 s i = none ∧ bos_check_long seq 0 s i = none) := by
  have hshort : ∀ m : ℚ,
      (bos_check_short seq m s i).isSome ↔ closeAt seq i < q.2 - |q.2| * m := by
    intro m
    unfold bos_check_short
    rw [hq]
    dsimp only
    simp only [qsub_eq, qmul_eq]
    by_cases hclose : closeAt seq i < q.2 - |q.2| * m
    · rw [if_pos ⟨hgate, hclose⟩]
      simp [hclose]
    · rw [if_neg fun hand => hclose hand.2]
      simp [hclose]
  have hlong : ∀ m : ℚ,
      (bos_check_long seq m s i).isSome ↔ q.2 + |q.2| * m < closeAt seq i := by
    intro m
    unfold bos_check_long
    rw [hq]
    dsimp only
    simp only [qadd_eq, qmul_eq]
    by_cases hclose : q.2 + |q.2| * m < closeAt seq i
    · rw [if_pos ⟨hgate, hclose⟩]
      simp [hclose]
    · rw [if_neg fun hand => hclose hand.2]
      simp [hclose]
  have hs0 : (bos_check_short seq 0 s i).isSome ↔ closeAt seq i < q.2 := by
    simpa using hshort 0
  have hl0 : (bos_check_long seq 0 s i).isSome ↔ q.2 < closeAt seq i := by
    simpa using hlong 0
  refine ⟨hshort, hlong, hs0, hl0, ?_⟩
  intro heq
  constructor
  · have : ¬(bos_check_short seq 0 s i).isSome = true := by
      rw [hs0, heq]
      exact lt_irrefl _
    exact Option.not_isSome_iff_eq_none.mp this
  · have : ¬(bos_check_long seq 0 s i).isSome = true := by
      rw [hl0, heq]
      exact lt_irrefl _
    exact Option.not_isSome_iff_eq_none.mp this

/-- C7 witness: at candle 6 of `h1Fix` (close `170`) with `p2.price = 160`
the long BOS fires and the short BOS does not; with `p2.price = 170` (close
exactly equal) neither fires. -/
theorem c7_bos_epsilon_witness :
    (bos_check_long h1Fix 0 ⟨none, some (4, 160), none⟩ 6).isSome = true ∧
    bos_check_short h1Fix 0 ⟨none, some (4, 160), none⟩ 6 = none ∧
    bos_check_short h1Fix 0 ⟨none, some (4, 170), none⟩ 6 = none ∧
    bos_check_long h1Fix 0 ⟨none, some (4, 170), none⟩ 6 = none := by
  have h := c7_bos_epsilon h1Fix ⟨none, some (4, 160), none⟩ 6 (4, 160) rfl (by decide)
  have h' := c7_bos_epsilon h1Fix ⟨none, some (4, 170), none⟩ 6 (4, 170) rfl (by decide)
  refine ⟨(h.2.2.2.1).mpr (by decide), ?_, (h'.2.2.2.2 (by decide)).1, (h'.2.2.2.2 (by decide)).2⟩
  have hno : ¬(bos_check_short h1Fix 0 ⟨none, some (4, 160), none⟩ 6).isSome = true := by
    rw [h.2.2.1]
    decide
  exact Option.not_isSome_iff_eq_none.mp hno

/-- C3 (confirmed): when notification delivery fails (`send_telegram` raises,
`src/main.py` lines 200-202), the exception propagates to the handler at line
833-834 before `mark_sent` (line 826) is reached, so the persisted sent-ledger
is unchanged and no flag becomes set. -/
theorem c3_no_mark_on_failure (cfg : ScanConfig) (symbol : String) (d1 h1 : List Candle)
    (session0 : Option Nat) (sent : List SentKey) :
    (process_symbol cfg symbol d1 h1 session0 sent false).sent = sent ∧
    ∀ k : SentKey,
      was_sent (process_symbol cfg symbol d1 h1 session0 sent false).sent k =
        was_sent sent k := by
  have hmain : (process_symbol cfg symbol d1 h1 session0 sent false).sent = sent := by
    unfold process_symbol
    dsimp only
    split
    · rfl
    · split
      · rfl
      · split
        · rfl
        · split
          · rfl
          · split
            · rfl
            · split
              · exact absurd ‹false = true› (by decide)
              · rfl
  exact ⟨hmain, fun k => by rw [hmain]⟩

/-- C1 counterexample: a full concrete pass (`dFix` daily candles, `h1Fix`
hourly candles, empty ledger, successful delivery) requests a notification
even though the session has only reached WAIT_RETEST (BOS found at ts 1006,
no retest yet), refuting "no notification is requested while the session is
still in WAIT_RETEST". -/
theorem c1_counterexample :
    (process_symbol cfgFix "SYM" dFix h1Fix none [] true).send_requested = true ∧
    (process_symbol cfgFix "SYM" dFix h1Fix none [] true).phase = Phase.WAIT_RETEST := by
  refine ⟨by decide, by decide⟩

/-- C1 (amended): with delivery succeeding, a notification is requested
exactly when the pipeline has detected a BOS for the current session — the
pass ends in WAIT_RETEST (retest still pending) or DONE — and the
`(symbol, direction, sessionId)` key has not been marked sent; in particular
a notification IS requested while the session is still awaiting the retest
(`src/main.py` lines 806-831 send before checking the retest result). -/
theorem c1_notify_on_bos (cfg : ScanConfig) (symbol : String) (d1 h1 : List Candle)
    (session0 : Option Nat) (sent : List SentKey) :
    (process_symbol cfg symbol d1 h1 session0 sent true).send_requested = true ↔
      ((process_symbol cfg symbol d1 h1 session0 sent true).phase = Phase.WAIT_RETEST ∨
       (process_symbol cfg symbol d1 h1 session0 sent true).phase = Phase.DONE) ∧
      ∃ k, (process_symbol cfg symbol d1 h1 session0 sent true).key = some k ∧
        was_sent sent k = false := by
  unfold process_symbol
  dsimp only
  split
  · simp
  · split
    · simp
    · split
      · simp
      · split
        · simp
        · split
          next hws =>
            constructor
            · intro h
              cases h
            · rintro ⟨hphase, k, hk, hwsk⟩
              injection hk with hkk
              subst hkk
              rw [hws] at hwsk
              cases hwsk
          next hws =>
            constructor
            · intro h
              refine ⟨?_, _, rfl, Bool.of_not_eq_true hws⟩
              split
              · split
                · exact Or.inl rfl
                · exact Or.inr rfl
              · exact absurd rfl ‹¬true = true›
            · intro h
              rfl

/-- C1 witness: the amended statement applied to the concrete `dFix`/`h1Fix`
pass. -/
theorem c1_notify_on_bos_witness :
    ((process_symbol cfgFix "SYM" dFix h1Fix none [] true).phase = Phase.WAIT_RETEST ∨
     (process_symbol cfgFix "SYM" dFix h1Fix none [] true).phase = Phase.DONE) ∧
    ∃ k, (process_symbol cfgFix "SYM" dFix h1Fix none [] true).key = some k ∧
      was_sent ([] : List SentKey) k = false :=
  (c1_notify_on_bos cfgFix "SYM" dFix h1Fix none []).mp (by decide)

theorem was_sent_iff {K : Type} [DecidableEq K] (sent : List K) (k : K) :
    was_sent sent k = true ↔ k ∈ sent := by
  simp [was_sent, List.contains, List.elem_iff]

theorem mark_sent_of_not_mem {K : Type} [DecidableEq K] (sent : List K) (k : K)
    (h : k ∉ sent) (hlen : sent.length < 6000) :
    mark_sent sent k = sent ++ [k] := by
  have hc : ¬sent.contains k = true := fun hh => h ((was_sent_iff sent k).mp hh)
  unfold mark_sent
  rw [if_neg hc, if_neg (by simp; omega)]

theorem run_passes_append {K : Type} [DecidableEq K] (k : K) (xs ys : List K) :
    ∀ (sent : List K) (c : Nat),
      run_passes k (xs ++ ys) sent c =
        run_passes k ys (run_passes k xs sent c).1 (run_passes k xs sent c).2 := by
  induction xs with
  | nil => intro sent c; rfl
  | cons x xs ih =>
    intro sent c
    by_cases hx : was_sent sent x = true
    · simp [run_passes, hx, ih]
    · simp [run_passes, hx, ih]

theorem run_passes_bound {K : Type} [DecidableEq K] (k : K) (ks : List K) :
    ∀ (sent : List K) (c : Nat) (S : Finset K),
      sent.Nodup → (∀ x ∈ sent, x ∈ S) → (∀ x ∈ ks, x ∈ S) → S.card ≤ 6000 →
      (run_passes k ks sent c).2 ≤ c + (if k ∈ sent then 0 else 1) := by
  induction ks with
  | nil =>
    intro sent c S _ _ _ _
    simp only [run_passes]
    split <;> omega
  | cons x ks ih =>
    intro sent c S hnd hsub hks hcard
    by_cases hx : was_sent sent x = true
    · rw [show run_passes k (x :: ks) sent c = run_passes k ks sent c from by
        simp [run_passes, hx]]
      exact ih sent c S hnd hsub (fun y hy => hks y (List.mem_cons_of_mem _ hy)) hcard
    · have hxmem : x ∉ sent := fun hm => hx ((was_sent_iff sent x).mpr hm)
      have hlen : sent.length < 6000 := by
        have h1 : sent.toFinset.card = sent.length := List.toFinset_card_of_nodup hnd
        have h2 : insert x sent.toFinset ⊆ S := by
          intro y hy
          rcases Finset.mem_insert.mp hy with rfl | hy'
          · exact hks y (List.mem_cons_self ..)
          · exact hsub y (List.mem_toFinset.mp hy')
        have h3 : (insert x sent.toFinset).card = sent.toFinset.card + 1 :=
          Finset.card_insert_of_not_mem (by simp [hxmem])
        have h4 := Finset.card_le_card h2
        omega
      have hms : mark_sent sent x = sent ++ [x] := mark_sent_of_not_mem sent x hxmem hlen
      rw [show run_passes k (x :: ks) sent c =
            run_passes k ks (mark_sent sent x) (if x = k then c + 1 else c) from by
          simp [run_passes, hx]]
      rw [hms]
      have hnd' : (sent ++ [x]).Nodup := by
        simp [List.nodup_append, hnd, hxmem]
      have hsub' : ∀ y ∈ sent ++ [x], y ∈ S := by
        intro y hy
        rcases List.mem_append.mp hy with hy' | hy'
        · exact hsub y hy'
        · simp at hy'
          exact hy' ▸ hks x (List.mem_cons_self ..)
      have hres := ih (sent ++ [x]) (if x = k then c + 1 else c) S hnd' hsub'
        (fun y hy => hks y (List.mem_cons_of_mem _ hy)) hcard
      by_cases hxk : x = k
      · have hkin : k ∈ sent ++ [x] := by simp [hxk]
        have hknotin : k ∉ sent := by rw [← hxk]; exact hxmem
        rw [if_pos hxk, if_pos hkin] at hres
        rw [if_pos hxk, if_neg hknotin]
        omega
      · have hmem_iff : (k ∈ sent ++ [x]) ↔ k ∈ sent := by
          have hne : ¬k = x := fun h => hxk h.symm
          simp [List.mem_append, hne]
        rw [if_neg hxk, if_congr hmem_iff rfl rfl] at hres
        rw [if_neg hxk]
        exact hres

theorem keyFix_injective : Function.Injective keyFix := by
  intro a b h
  simp [keyFix, Prod.ext_iff] at h
  exact h

theorem run_passes_map_range {K : Type} [DecidableEq K] (f : Nat → K)
    (hf : Function.Injective f) :
    ∀ n, n ≤ 6000 →
      run_passes (f 0) ((List.range n).map f) [] 0 = ((List.range n).map f, min n 1)
  | 0, _ => rfl
  | n + 1, h => by
    have ih := run_passes_map_range f hf n (by omega)
    rw [List.range_succ, List.map_append, run_passes_append, ih]
    dsimp only
    have hnotmem : ¬was_sent ((List.range n).map f) (f n) = true := by
      rw [was_sent_iff]
      intro hm
      obtain ⟨m, hm1, hm2⟩ := List.mem_map.mp hm
      have hmn := hf hm2
      rw [List.mem_range] at hm1
      omega
    have hfnmem : f n ∉ (List.range n).map f := fun hm => hnotmem ((was_sent_iff _ _).mpr hm)
    have hlen : ((List.range n).map f).length < 6000 := by
      rw [List.length_map, List.length_range]; omega
    simp only [List.map_cons, List.map_nil]
    rw [show run_passes (f 0) [f n] ((List.range n).map f) (min n 1) =
          (mark_sent ((List.range n).map f) (f n),
            if f n = f 0 then min n 1 + 1 else min n 1) from by
        simp [run_passes, hnotmem]]
    rw [mark_sent_of_not_mem _ _ hfnmem hlen]
    rcases Nat.eq_zero_or_pos n with hn | hn
    · subst hn
      rw [if_pos rfl]
      norm_num
    · have hne : f n ≠ f 0 := fun hq => by
        have h0 := hf hq
        omega
      rw [if_neg hne]
      have hmin : min n 1 = min (n + 1) 1 := by omega
      rw [hmin]

theorem le_of_mem_drop_range (n k x : Nat) (h : x ∈ (List.range n).drop k) : k ≤ x := by
  obtain ⟨i, hi, hgx⟩ := List.mem_iff_getElem.mp h
  rw [List.getElem_drop, List.getElem_range] at hgx
  omega

theorem mark_sent_evict {K : Type} [DecidableEq K] (sent : List K) (k : K)
    (h : k ∉ sent) (hlen : sent.length = 6000) :
    mark_sent sent k = (sent ++ [k]).drop 1501 := by
  have hc : ¬sent.contains k = true := fun hh => h ((was_sent_iff sent k).mp hh)
  unfold mark_sent
  rw [if_neg hc, if_pos (by simp [hlen])]
  simp [hlen]

theorem run_passes_evict :
    run_passes (keyFix 0) ((List.range 6001).map keyFix) [] 0 =
      (((List.range 6001).map keyFix).drop 1501, 1) := by
  rw [show (6001 : Nat) = 6000 + 1 from rfl, List.range_succ, List.map_append,
    run_passes_append, run_passes_map_range keyFix keyFix_injective 6000 (le_refl _)]
  dsimp only
  simp only [List.map_cons, List.map_nil]
  have hnotmem : ¬was_sent ((List.range 6000).map keyFix) (keyFix 6000) = true := by
    rw [was_sent_iff]
    intro hm
    obtain ⟨m, hm1, hm2⟩ := List.mem_map.mp hm
    have hmn := keyFix_injective hm2
    rw [List.mem_range] at hm1
    omega
  have hfnmem : keyFix 6000 ∉ (List.range 6000).map keyFix :=
    fun hm => hnotmem ((was_sent_iff _ _).mpr hm)
  rw [show run_passes (keyFix 0) [keyFix 6000] ((List.range 6000).map keyFix) (min 6000 1) =
        (mark_sent ((List.range 6000).map keyFix) (keyFix 6000),
          if keyFix 6000 = keyFix 0 then min 6000 1 + 1 else min 6000 1) from by
      simp [run_passes, hnotmem]]
  rw [mark_sent_evict _ _ hfnmem (by simp)]
  rw [if_neg (fun hq => by have h0 := keyFix_injective hq; omega)]
  congr 1

/-- C2: counterexample.  6001 distinct sessions marked in one long run push the
ledger past 6000 entries, so `mark_sent` evicts the oldest 1501 keys
(`src/main.py` lines 160-164); the evicted key `keyFix 0` is then sent a SECOND
time on a later pass over the same session — the ledger is not idempotent
without a bound on the number of live keys. -/
theorem c2_counterexample :
    (run_passes (keyFix 0) (((List.range 6001).map keyFix) ++ [keyFix 0]) [] 0).2 = 2 := by
  rw [run_passes_append, run_passes_evict]
  dsimp only
  have hnot : ¬was_sent (((List.range 6001).map keyFix).drop 1501) (keyFix 0) = true := by
    rw [was_sent_iff]
    intro hm
    obtain ⟨i, hi, hg⟩ := List.mem_iff_getElem.mp hm
    rw [List.getElem_drop, List.getElem_map, List.getElem_range] at hg
    have h0 := keyFix_injective hg
    omega
  simp [run_passes, hnot]

/-- C2 (amended): as long as the ledger never outgrows the 6000-entry eviction
threshold — i.e. at most 6000 distinct `(symbol, direction, session)` keys are
marked across all passes — replaying any sequence of passes over a persisted
`SessionLedger` sends at most one notification for any given key
(`src/main.py` lines 149-165, 819-826). -/
theorem c2_ledger_idempotent {K : Type} [DecidableEq K] (k : K) (ks : List K)
    (h : ks.toFinset.card ≤ 6000) :
    (run_passes k ks [] 0).2 ≤ 1 := by
  have hb := run_passes_bound k ks [] 0 ks.toFinset List.nodup_nil
    (by intro x hx; cases hx) (fun x hx => List.mem_toFinset.mpr hx) h
  simpa using hb

/-- C2 witness: three passes over two sessions, the tracked session appearing
twice, yield exactly one send for it. -/
theorem c2_ledger_idempotent_witness :
    ([keyFix 0, keyFix 1, keyFix 0] : List SentKey).toFinset.card ≤ 6000 ∧
    (run_passes (keyFix 0) [keyFix 0, keyFix 1, keyFix 0] [] 0).2 ≤ 1 :=
  ⟨by decide, c2_ledger_idempotent (keyFix 0) [keyFix 0, keyFix 1, keyFix 0] (by decide)⟩

theorem ranges_intersect_iff (a_lo a_hi b_lo b_hi : ℚ)
    (ha : a_lo ≤ a_hi) (hb : b_lo ≤ b_hi) :
    ranges_intersect a_lo a_hi b_lo b_hi = true ↔
      ∃ x, (a_lo ≤ x ∧ x ≤ a_hi) ∧ (b_lo ≤ x ∧ x ≤ b_hi) := by
  unfold ranges_intersect
  rw [max_eq_right ha, max_eq_right hb, min_eq_left ha, min_eq_left hb]
  simp only [Bool.not_eq_true', Bool.or_eq_false_iff, decide_eq_false_iff_not, not_lt]
  constructor
  · rintro ⟨h1, h2⟩
    exact ⟨max a_lo b_lo, ⟨le_max_left .., max_le ha h1⟩, le_max_right .., max_le h2 hb⟩
  · rintro ⟨x, ⟨hx1, hx2⟩, hx3, hx4⟩
    exact ⟨le_trans hx3 hx2, le_trans hx1 hx4⟩

theorem touch_of_eq_none_iff (blk : Block) (tol : ℚ) (c : Candle) :
    touch_of blk tol c = none ↔
      ranges_intersect c.low c.high
        (blk.wick.1 - |(blk.wick.1 + blk.wick.2) / 2| * tol)
        (blk.wick.2 + |(blk.wick.1 + blk.wick.2) / 2| * tol) = false := by
  simp only [touch_of, pct_tol, qadd_eq, qsub_eq, qmul_eq, qdiv_eq]
  split
  · next h =>
    split
    · simp [h]
    · simp [h]
  · next h =>
    simp only [Bool.not_eq_true] at h
    simp [h]

theorem touch_of_part_body_iff (blk : Block) (tol : ℚ) (c : Candle) (r : TouchEvent)
    (h : touch_of blk tol c = some r) :
    r.touch_part = TouchPart.body ↔
      ranges_intersect c.low c.high
        (blk.body.1 - |(blk.wick.1 + blk.wick.2) / 2| * tol)
        (blk.body.2 + |(blk.wick.1 + blk.wick.2) / 2| * tol) = true := by
  simp only [touch_of, pct_tol, qadd_eq, qsub_eq, qmul_eq, qdiv_eq] at h
  split at h
  · split at h
    · next hbody =>
      injection h with h'
      subst h'
      simp [hbody]
    · next hbody =>
      injection h with h'
      subst h'
      simp [hbody]
  · exact absurd h (by simp)

/-- C9: `find_touch`'s per-candle matcher (`src/main.py` lines 499-528) expands
both the block's body range and wick range by the same amount
`t = |wick midpoint| * tol`, returns no touch exactly when the candle's
`[low, high]` misses the expanded wick range, and otherwise classifies the
touch as BODY exactly when the candle meets the expanded body range (body
taking precedence), WICK otherwise. -/
theorem c9_touch_classification (blk : Block) (tol : ℚ) (c : Candle)
    (hc : c.low ≤ c.high) (hw : blk.wick.1 ≤ blk.wick.2)
    (hb : blk.body.1 ≤ blk.body.2) (ht : 0 ≤ tol) :
    (touch_of blk tol c = none ↔
      ¬∃ x, (c.low ≤ x ∧ x ≤ c.high) ∧
        (blk.wick.1 - |(blk.wick.1 + blk.wick.2) / 2| * tol ≤ x ∧
         x ≤ blk.wick.2 + |(blk.wick.1 + blk.wick.2) / 2| * tol)) ∧
    (∀ r, touch_of blk tol c = some r →
      (r.touch_part = TouchPart.body ↔
        ∃ x, (c.low ≤ x ∧ x ≤ c.high) ∧
          (blk.body.1 - |(blk.wick.1 + blk.wick.2) / 2| * tol ≤ x ∧
           x ≤ blk.body.2 + |(blk.wick.1 + blk.wick.2) / 2| * tol))) := by
  have hT : (0 : ℚ) ≤ |(blk.wick.1 + blk.wick.2) / 2| * tol :=
    mul_nonneg (abs_nonneg _) ht
  constructor
  · rw [touch_of_eq_none_iff, Bool.eq_false_iff, Ne,
      ranges_intersect_iff _ _ _ _ hc (by linarith)]
  · intro r hr
    rw [touch_of_part_body_iff blk tol c r hr,
      ranges_intersect_iff _ _ _ _ hc (by linarith)]

/-- C9 witness: `cWFix` (range `[1, 9]`) against `blockFix` (wick `(0, 110)`,
body `(10, 110)`) with zero tolerance: a touch is reported and it is a wick
touch, because the candle meets the wick range but not the body range. -/
theorem c9_touch_classification_witness :
    (cWFix.low ≤ cWFix.high ∧ blockFix.wick.1 ≤ blockFix.wick.2 ∧
     blockFix.body.1 ≤ blockFix.body.2 ∧ (0 : ℚ) ≤ 0) ∧
    ((touch_of blockFix 0 cWFix = none ↔
      ¬∃ x, (cWFix.low ≤ x ∧ x ≤ cWFix.high) ∧
        (blockFix.wick.1 - |(blockFix.wick.1 + blockFix.wick.2) / 2| * 0 ≤ x ∧
         x ≤ blockFix.wick.2 + |(blockFix.wick.1 + blockFix.wick.2) / 2| * 0)) ∧
     (∀ r, touch_of blockFix 0 cWFix = some r →
      (r.touch_part = TouchPart.body ↔
        ∃ x, (cWFix.low ≤ x ∧ x ≤ cWFix.high) ∧
          (blockFix.body.1 - |(blockFix.wick.1 + blockFix.wick.2) / 2| * 0 ≤ x ∧
           x ≤ blockFix.body.2 + |(blockFix.wick.1 + blockFix.wick.2) / 2| * 0)))) :=
  ⟨⟨by decide, by decide, by decide, le_refl 0⟩,
   c9_touch_classification blockFix 0 cWFix (by decide) (by decide) (by decide) (le_refl 0)⟩

theorem tsAt_mem_map (seq : List Candle) (j : Nat) (h : j < seq.length) :
    tsAt seq j ∈ seq.map Candle.ts := by
  unfold tsAt
  rw [List.getD_eq_getElem?_getD, List.getElem?_eq_getElem h]
  exact List.mem_map.mpr ⟨seq[j], List.getElem_mem h, rfl⟩

theorem touch_of_ts (blk : Block) (tol : ℚ) (c : Candle) (r : TouchEvent)
    (h : touch_of blk tol c = some r) : r.ts = c.ts := by
  unfold touch_of at h
  dsimp only at h
  split at h
  · split at h
    · injection h with h'
      subst h'
      rfl
    · injection h with h'
      subst h'
      rfl
  · exact absurd h (by simp)

theorem p1_step_short_cases (ph : List (Option ℚ)) (s : TrackState) (i : Nat) :
    p1_step_short ph s i = s ∨
      ((p1_step_short ph s i).p2 = none ∧ (p1_step_short ph s i).p3 = none) := by
  unfold p1_step_short
  split
  · exact Or.inr ⟨rfl, rfl⟩
  · split
    · exact Or.inr ⟨rfl, rfl⟩
    · exact Or.inl rfl
  · exact Or.inl rfl

theorem p1_step_long_cases (pl : List (Option ℚ)) (s : TrackState) (i : Nat) :
    p1_step_long pl s i = s ∨
      ((p1_step_long pl s i).p2 = none ∧ (p1_step_long pl s i).p3 = none) := by
  unfold p1_step_long
  split
  · exact Or.inr ⟨rfl, rfl⟩
  · split
    · exact Or.inr ⟨rfl, rfl⟩
    · exact Or.inl rfl
  · exact Or.inl rfl

theorem p2_step_short_cases (pl : List (Option ℚ)) (s : TrackState) (i : Nat) :
    p2_step_short pl s i = s ∨
      ∃ v, p2_step_short pl s i = { s with p2 := some (i, v) } := by
  unfold p2_step_short
  split
  · split
    · exact Or.inr ⟨_, rfl⟩
    · exact Or.inl rfl
  · exact Or.inl rfl

theorem p2_step_long_cases (ph : List (Option ℚ)) (s : TrackState) (i : Nat) :
    p2_step_long ph s i = s ∨
      ∃ v, p2_step_long ph s i = { s with p2 := some (i, v) } := by
  unfold p2_step_long
  split
  · split
    · exact Or.inr ⟨_, rfl⟩
    · exact Or.inl rfl
  · exact Or.inl rfl

theorem p3_step_short_cases (ph : List (Option ℚ)) (s : TrackState) (i : Nat) :
    p3_step_short ph s i = s ∨
      ∃ v, p3_step_short ph s i = { s with p3 := some (i, v) } := by
  unfold p3_step_short
  split
  · split
    · exact Or.inr ⟨_, rfl⟩
    · exact Or.inl rfl
  · exact Or.inl rfl

theorem p3_step_long_cases (pl : List (Option ℚ)) (s : TrackState) (i : Nat) :
    p3_step_long pl s i = s ∨
      ∃ v, p3_step_long pl s i = { s with p3 := some (i, v) } := by
  unfold p3_step_long
  split
  · split
    · exact Or.inr ⟨_, rfl⟩
    · exact Or.inl rfl
  · exact Or.inl rfl

theorem upd_short_bounded (ph pl : List (Option ℚ)) (s : TrackState) (i n : Nat)
    (hi : i < n)
    (h2 : ∀ p, s.p2 = some p → p.1 < n)
    (h3 : ∀ p, s.p3 = some p → p.1 < n) :
    (∀ p, (upd_short ph pl s i).p2 = some p → p.1 < n) ∧
    (∀ p, (upd_short ph pl s i).p3 = some p → p.1 < n) := by
  have hb1 : (∀ p, (p1_step_short ph s i).p2 = some p → p.1 < n) ∧
      (∀ p, (p1_step_short ph s i).p3 = some p → p.1 < n) := by
    rcases p1_step_short_cases ph s i with h | ⟨hp2, hp3⟩
    · rw [h]; exact ⟨h2, h3⟩
    · exact ⟨fun p hp => absurd (hp2 ▸ hp) (by simp),
             fun p hp => absurd (hp3 ▸ hp) (by simp)⟩
  have hb2 : (∀ p, (p2_step_short pl (p1_step_short ph s i) i).p2 = some p → p.1 < n) ∧
      (∀ p, (p2_step_short pl (p1_step_short ph s i) i).p3 = some p → p.1 < n) := by
    rcases p2_step_short_cases pl (p1_step_short ph s i) i with h | ⟨v, h⟩
    · rw [h]; exact hb1
    · rw [h]
      refine ⟨fun p hp => ?_, fun p hp => hb1.2 p hp⟩
      injection hp with hp'
      subst hp'
      exact hi
  unfold upd_short
  rcases p3_step_short_cases ph (p2_step_short pl (p1_step_short ph s i) i) i with h | ⟨v, h⟩
  · rw [h]; exact hb2
  · rw [h]
    refine ⟨fun p hp => hb2.1 p hp, fun p hp => ?_⟩
    injection hp with hp'
    subst hp'
    exact hi

theorem upd_long_bounded (ph pl : List (Option ℚ)) (s : TrackState) (i n : Nat)
    (hi : i < n)
    (h2 : ∀ p, s.p2 = some p → p.1 < n)
    (h3 : ∀ p, s.p3 = some p → p.1 < n) :
    (∀ p, (upd_long ph pl s i).p2 = some p → p.1 < n) ∧
    (∀ p, (upd_long ph pl s i).p3 = some p → p.1 < n) := by
  have hb1 : (∀ p, (p1_step_long pl s i).p2 = some p → p.1 < n) ∧
      (∀ p, (p1_step_long pl s i).p3 = some p → p.1 < n) := by
    rcases p1_step_long_cases pl s i with h | ⟨hp2, hp3⟩
    · rw [h]; exact ⟨h2, h3⟩
    · exact ⟨fun p hp => absurd (hp2 ▸ hp) (by simp),
             fun p hp => absurd (hp3 ▸ hp) (by simp)⟩
  have hb2 : (∀ p, (p2_step_long ph (p1_step_long pl s i) i).p2 = some p → p.1 < n) ∧
      (∀ p, (p2_step_long ph (p1_step_long pl s i) i).p3 = some p → p.1 < n) := by
    rcases p2_step_long_cases ph (p1_step_long pl s i) i with h | ⟨v, h⟩
    · rw [h]; exact hb1
    · rw [h]
      refine ⟨fun p hp => ?_, fun p hp => hb1.2 p hp⟩
      injection hp with hp'
      subst hp'
      exact hi
  unfold upd_long
  rcases p3_step_long_cases pl (p2_step_long ph (p1_step_long pl s i) i) i with h | ⟨v, h⟩
  · rw [h]; exact hb2
  · rw [h]
    refine ⟨fun p hp => hb2.1 p hp, fun p hp => ?_⟩
    injection hp with hp'
    subst hp'
    exact hi

theorem bos_check_short_mem (seq : List Candle) (min_pct : ℚ) (s : TrackState)
    (i : Nat) (r : StructRes) (hi : i < seq.length)
    (h2 : ∀ p, s.p2 = some p → p.1 < seq.length)
    (h3 : ∀ p, s.p3 = some p → p.1 < seq.length)
    (h : bos_check_short seq min_pct s i = some r) :
    r.p2.ts ∈ seq.map Candle.ts ∧
    (∀ q, r.p3 = some q → q.ts ∈ seq.map Candle.ts) ∧
    r.bos.ts ∈ seq.map Candle.ts := by
  unfold bos_check_short at h
  rcases hs2 : s.p2 with _ | q
  · rw [hs2] at h
    exact absurd h (by simp)
  · rw [hs2] at h
    dsimp only at h
    split at h
    · injection h with h'
      subst h'
      refine ⟨tsAt_mem_map seq q.1 (h2 q hs2), ?_, tsAt_mem_map seq i hi⟩
      intro q3 hq3
      dsimp only at hq3
      rcases hs3 : s.p3 with _ | p3v
      · rw [hs3] at hq3
        exact absurd hq3 (by simp)
      · rw [hs3] at hq3
        rw [Option.map_some'] at hq3
        injection hq3 with hq3'
        subst hq3'
        exact tsAt_mem_map seq p3v.1 (h3 p3v hs3)
    · exact absurd h (by simp)

theorem bos_check_long_mem (seq : List Candle) (min_pct : ℚ) (s : TrackState)
    (i : Nat) (r : StructRes) (hi : i < seq.length)
    (h2 : ∀ p, s.p2 = some p → p.1 < seq.length)
    (h3 : ∀ p, s.p3 = some p → p.1 < seq.length)
    (h : bos_check_long seq min_pct s i = some r) :
    r.p2.ts ∈ seq.map Candle.ts ∧
    (∀ q, r.p3 = some q → q.ts ∈ seq.map Candle.ts) ∧
    r.bos.ts ∈ seq.map Candle.ts := by
  unfold bos_check_long at h
  rcases hs2 : s.p2 with _ | q
  · rw [hs2] at h
    exact absurd h (by simp)
  · rw [hs2] at h
    dsimp only at h
    split at h
    · injection h with h'
      subst h'
      refine ⟨tsAt_mem_map seq q.1 (h2 q hs2), ?_, tsAt_mem_map seq i hi⟩
      intro q3 hq3
      dsimp only at hq3
      rcases hs3 : s.p3 with _ | p3v
      · rw [hs3] at hq3
        exact absurd hq3 (by simp)
      · rw [hs3] at hq3
        rw [Option.map_some'] at hq3
        injection hq3 with hq3'
        subst hq3'
        exact tsAt_mem_map seq p3v.1 (h3 p3v hs3)
    · exact absurd h (by simp)

theorem detect_loop_short_mem (seq : List Candle) (ph pl : List (Option ℚ))
    (min_pct : ℚ) :
    ∀ (l : List Nat) (s : TrackState) (r : StructRes),
      (∀ i ∈ l, i < seq.length) →
      (∀ p, s.p2 = some p → p.1 < seq.length) →
      (∀ p, s.p3 = some p → p.1 < seq.length) →
      detect_loop_short seq ph pl min_pct l s = some r →
      r.p2.ts ∈ seq.map Candle.ts ∧
      (∀ q, r.p3 = some q → q.ts ∈ seq.map Candle.ts) ∧
      r.bos.ts ∈ seq.map Candle.ts := by
  intro l
  induction l with
  | nil =>
    intro s r _ _ _ h
    exact absurd h (by simp [detect_loop_short])
  | cons i rest ih =>
    intro s r hl h2 h3 h
    have hi : i < seq.length := hl i (List.mem_cons_self ..)
    obtain ⟨hb2, hb3⟩ := upd_short_bounded ph pl s i seq.length hi h2 h3
    rw [show detect_loop_short seq ph pl min_pct (i :: rest) s =
          (match bos_check_short seq min_pct (upd_short ph pl s i) i with
           | some r0 => some r0
           | none => detect_loop_short seq ph pl min_pct rest (upd_short ph pl s i))
        from rfl] at h
    rcases hbc : bos_check_short seq min_pct (upd_short ph pl s i) i with _ | r0
    · rw [hbc] at h
      exact ih _ r (fun j hj => hl j (List.mem_cons_of_mem _ hj)) hb2 hb3 h
    · rw [hbc] at h
      injection h with h'
      subst h'
      exact bos_check_short_mem seq min_pct _ i r0 hi hb2 hb3 hbc

theorem detect_loop_long_mem (seq : List Candle) (ph pl : List (Option ℚ))
    (min_pct : ℚ) :
    ∀ (l : List Nat) (s : TrackState) (r : StructRes),
      (∀ i ∈ l, i < seq.length) →
      (∀ p, s.p2 = some p → p.1 < seq.length) →
      (∀ p, s.p3 = some p → p.1 < seq.length) →
      detect_loop_long seq ph pl min_pct l s = some r →
      r.p2.ts ∈ seq.map Candle.ts ∧
      (∀ q, r.p3 = some q → q.ts ∈ seq.map Candle.ts) ∧
      r.bos.ts ∈ seq.map Candle.ts := by
  intro l
  induction l with
  | nil =>
    intro s r _ _ _ h
    exact absurd h (by simp [detect_loop_long])
  | cons i rest ih =>
    intro s r hl h2 h3 h
    have hi : i < seq.length := hl i (List.mem_cons_self ..)
    obtain ⟨hb2, hb3⟩ := upd_long_bounded ph pl s i seq.length hi h2 h3
    rw [show detect_loop_long seq ph pl min_pct (i :: rest) s =
          (match bos_check_long seq min_pct (upd_long ph pl s i) i with
           | some r0 => some r0
           | none => detect_loop_long seq ph pl min_pct rest (upd_long ph pl s i))
        from rfl] at h
    rcases hbc : bos_check_long seq min_pct (upd_long ph pl s i) i with _ | r0
    · rw [hbc] at h
      exact ih _ r (fun j hj => hl j (List.mem_cons_of_mem _ hj)) hb2 hb3 h
    · rw [hbc] at h
      injection h with h'
      subst h'
      exact bos_check_long_mem seq min_pct _ i r0 hi hb2 hb3 hbc

theorem ts_mem_of_drop (h1 : List Candle) (idx0 : Nat) (x : Nat)
    (h : x ∈ (h1.dropLast.drop idx0).map Candle.ts) :
    x ∈ h1.dropLast.map Candle.ts := by
  obtain ⟨c, hc, rfl⟩ := List.mem_map.mp h
  exact List.mem_map.mpr ⟨c, List.mem_of_mem_drop hc, rfl⟩

/-- C10: every lower-timeframe detection step excludes the final (possibly
unclosed) candle of the fetched series: the touch candle found by `find_touch`
(`src/main.py` line 510), the P2/P3/BOS candles found by `detect_structure`
(line 557) and the retest candle found by `detect_retest` (line 674) all carry
the timestamp of a candle of `h1[:-1]`. -/
theorem c10_last_candle_excluded :
    (∀ (h1 : List Candle) (blk : Block) (tol : ℚ) (r : TouchEvent),
       find_touch h1 blk tol = some r → r.ts ∈ h1.dropLast.map Candle.ts) ∧
    (∀ (h1 : List Candle) (dir : TradeDir) (p1_ts left right : Nat) (min_pct : ℚ)
       (r : StructRes),
       detect_structure h1 dir p1_ts left right min_pct = some r →
       r.p2.ts ∈ h1.dropLast.map Candle.ts ∧
       (∀ q, r.p3 = some q → q.ts ∈ h1.dropLast.map Candle.ts) ∧
       r.bos.ts ∈ h1.dropLast.map Candle.ts) ∧
    (∀ (h1 : List Candle) (bos_ts : Nat) (p2_price : ℚ) (p3_price : Option ℚ)
       (rtol : ℚ) (r : RetestEvent),
       detect_retest h1 bos_ts p2_price p3_price rtol = some r →
       r.ts ∈ h1.dropLast.map Candle.ts) := by
  refine ⟨?_, ?_, ?_⟩
  · intro h1 blk tol r h
    unfold find_touch at h
    split at h
    · exact absurd h (by simp)
    · obtain ⟨c, hc, hfc⟩ := List.exists_of_findSome?_eq_some h
      rw [List.mem_reverse] at hc
      rw [touch_of_ts blk tol c r hfc]
      exact List.mem_map.mpr ⟨c, hc, rfl⟩
  · intro h1 dir p1_ts left right min_pct r h
    unfold detect_structure at h
    split at h
    · exact absurd h (by simp)
    · rcases hidx : h1.findIdx? (fun c => decide (p1_ts ≤ c.ts)) with _ | idx0
      · rw [hidx] at h
        exact absurd h (by simp)
      · rw [hidx] at h
        dsimp only at h
        split at h
        · exact absurd h (by simp)
        · cases dir with
          | long =>
            dsimp only at h
            have hm := detect_loop_long_mem (h1.dropLast.drop idx0) _ _ min_pct
              (List.range (h1.dropLast.drop idx0).length) ⟨none, none, none⟩ r
              (fun i hi => List.mem_range.mp hi)
              (by intro p hp; cases hp) (by intro p hp; cases hp) h
            exact ⟨ts_mem_of_drop _ _ _ hm.1,
                   fun q hq => ts_mem_of_drop _ _ _ (hm.2.1 q hq),
                   ts_mem_of_drop _ _ _ hm.2.2⟩
          | short =>
            dsimp only at h
            have hm := detect_loop_short_mem (h1.dropLast.drop idx0) _ _ min_pct
              (List.range (h1.dropLast.drop idx0).length) ⟨none, none, none⟩ r
              (fun i hi => List.mem_range.mp hi)
              (by intro p hp; cases hp) (by intro p hp; cases hp) h
            exact ⟨ts_mem_of_drop _ _ _ hm.1,
                   fun q hq => ts_mem_of_drop _ _ _ (hm.2.1 q hq),
                   ts_mem_of_drop _ _ _ hm.2.2⟩
  · intro h1 bos_ts p2_price p3_price rtol r h
    unfold detect_retest at h
    split at h
    · exact absurd h (by simp)
    · dsimp only at h
      split at h
      · exact absurd h (by simp)
      · obtain ⟨c, hc, hfc⟩ := List.exists_of_findSome?_eq_some h
        have hcm : c ∈ h1.dropLast := (List.mem_filter.mp hc).1
        have hts : r.ts = c.ts := by
          split at hfc
          · injection hfc with h'
            subst h'
            rfl
          · split at hfc
            · split at hfc
              · injection hfc with h'
                subst h'
                rfl
              · exact absurd hfc (by simp)
            · exact absurd hfc (by simp)
        rw [hts]
        exact List.mem_map.mpr ⟨c, hcm, rfl⟩

/-- C10 witness: the concrete touch, structure and retest results on the
fixtures all carry timestamps of closed (non-final) hourly candles. -/
theorem c10_last_candle_excluded_witness :
    ((1000 : Nat) ∈ h1Fix.dropLast.map Candle.ts) ∧
    ((1004 : Nat) ∈ h1Fix.dropLast.map Candle.ts) ∧
    ((1006 : Nat) ∈ h1Fix.dropLast.map Candle.ts) ∧
    ((1010 : Nat) ∈ h1RFix.dropLast.map Candle.ts) :=
  ⟨c10_last_candle_excluded.1 h1Fix blockFix 0 ⟨1000, 100, 120, 100, .body⟩ (by decide),
   (c10_last_candle_excluded.2.1 h1Fix .long 1000 1 1 0
      ⟨.long, ⟨1004, 160⟩, none, ⟨1006, 170⟩⟩ (by decide)).1,
   (c10_last_candle_excluded.2.1 h1Fix .long 1000 1 1 0
      ⟨.long, ⟨1004, 160⟩, none, ⟨1006, 170⟩⟩ (by decide)).2.2,
   c10_last_candle_excluded.2.2 h1RFix 1006 160 none 0 ⟨1010, 160, .P2⟩ (by decide)⟩

theorem find_d1_blocks_eq (d1 : List Candle) (left right : Nat) :
    find_d1_blocks d1 left right =
      if d1.length < 20 then []
      else dedup_by_key (sort_desc (emitted_blocks d1 left right)) [] := rfl

theorem insert_desc_mem (b x : Block) (l : List Block) :
    x ∈ insert_desc b l ↔ x = b ∨ x ∈ l := by
  induction l with
  | nil => simp [insert_desc]
  | cons y ys ih =>
    unfold insert_desc
    split
    · simp
    · rw [List.mem_cons, ih, List.mem_cons]
      tauto

theorem sort_desc_mem (x : Block) (l : List Block) :
    x ∈ sort_desc l ↔ x ∈ l := by
  induction l with
  | nil => simp [sort_desc]
  | cons y ys ih =>
    show x ∈ insert_desc y (sort_desc ys) ↔ _
    rw [insert_desc_mem, ih, List.mem_cons]

theorem insert_desc_pairwise (b : Block) (l : List Block)
    (h : l.Pairwise fun a c => c.ts ≤ a.ts) :
    (insert_desc b l).Pairwise fun a c => c.ts ≤ a.ts := by
  induction l with
  | nil => simp [insert_desc]
  | cons y ys ih =>
    rw [List.pairwise_cons] at h
    unfold insert_desc
    split
    · next hle =>
      rw [List.pairwise_cons]
      refine ⟨?_, List.pairwise_cons.mpr h⟩
      intro c hc
      rcases List.mem_cons.mp hc with rfl | hc'
      · exact hle
      · exact le_trans (h.1 c hc') hle
    · next hgt =>
      rw [List.pairwise_cons]
      refine ⟨?_, ih h.2⟩
      intro c hc
      rcases (insert_desc_mem b c ys).mp hc with rfl | hc'
      · omega
      · exact h.1 c hc'

theorem sort_desc_pairwise (l : List Block) :
    (sort_desc l).Pairwise fun a c => c.ts ≤ a.ts := by
  induction l with
  | nil => simp [sort_desc]
  | cons y ys ih => exact insert_desc_pairwise y (sort_desc ys) ih

theorem dedup_subset :
    ∀ (l : List Block) (seen : List (BlockKind × TradeDir)) (b : Block),
      b ∈ dedup_by_key l seen → b ∈ l ∧ block_key b ∉ seen := by
  intro l
  induction l with
  | nil => intro seen b h; exact absurd h (by simp [dedup_by_key])
  | cons x rest ih =>
    intro seen b h
    unfold dedup_by_key at h
    split at h
    · obtain ⟨hb, hk⟩ := ih seen b h
      exact ⟨List.mem_cons_of_mem _ hb, hk⟩
    · next hx =>
      rcases List.mem_cons.mp h with rfl | h'
      · exact ⟨List.mem_cons_self .., hx⟩
      · obtain ⟨hb, hk⟩ := ih _ b h'
        exact ⟨List.mem_cons_of_mem _ hb, fun hm => hk (List.mem_cons_of_mem _ hm)⟩

theorem dedup_max_ts :
    ∀ (l : List Block) (seen : List (BlockKind × TradeDir)),
      (l.Pairwise fun a c => c.ts ≤ a.ts) →
      ∀ b ∈ dedup_by_key l seen, ∀ b' ∈ l, block_key b' = block_key b → b'.ts ≤ b.ts := by
  intro l
  induction l with
  | nil => intro seen _ b hb; exact absurd hb (by simp [dedup_by_key])
  | cons x rest ih =>
    intro seen hp b hb b' hb' hkey
    rw [List.pairwise_cons] at hp
    unfold dedup_by_key at hb
    split at hb
    · next hx =>
      rcases List.mem_cons.mp hb' with rfl | h'
      · exact absurd (hkey ▸ hx) ((dedup_subset rest seen b hb).2)
      · exact ih seen hp.2 b hb b' h' hkey
    · next hx =>
      rcases List.mem_cons.mp hb with rfl | hbr
      · rcases List.mem_cons.mp hb' with rfl | h'
        · exact le_refl _
        · exact hp.1 b' h'
      · have hkb := (dedup_subset rest _ b hbr).2
        have hkbx : block_key b ≠ block_key x := fun he =>
          hkb (he ▸ List.mem_cons_self ..)
        rcases List.mem_cons.mp hb' with rfl | h'
        · exact absurd hkey.symm hkbx
        · exact ih _ hp.2 b hbr b' h' hkey

theorem dedup_covers :
    ∀ (l : List Block) (seen : List (BlockKind × TradeDir)) (b' : Block),
      b' ∈ l → block_key b' ∉ seen →
      ∃ b ∈ dedup_by_key l seen, block_key b = block_key b' := by
  intro l
  induction l with
  | nil => intro seen b' hb'; exact absurd hb' (by simp)
  | cons x rest ih =>
    intro seen b' hb' hns
    unfold dedup_by_key
    split
    · next hx =>
      rcases List.mem_cons.mp hb' with rfl | h'
      · exact absurd hx hns
      · exact ih seen b' h' hns
    · next hx =>
      rcases List.mem_cons.mp hb' with rfl | h'
      · exact ⟨b', List.mem_cons_self .., rfl⟩
      · by_cases hkx : block_key b' = block_key x
        · exact ⟨x, List.mem_cons_self .., hkx.symm⟩
        · obtain ⟨b, hbm, hbk⟩ := ih (block_key x :: seen) b' h'
            (by intro hm; rcases List.mem_cons.mp hm with he | hm'
                · exact hkx he
                · exact hns hm')
          exact ⟨b, List.mem_cons_of_mem _ hbm, hbk⟩

theorem dedup_keys_pairwise :
    ∀ (l : List Block) (seen : List (BlockKind × TradeDir)),
      (dedup_by_key l seen).Pairwise fun a c => block_key a ≠ block_key c := by
  intro l
  induction l with
  | nil => intro seen; simp [dedup_by_key]
  | cons x rest ih =>
    intro seen
    unfold dedup_by_key
    split
    · exact ih seen
    · rw [List.pairwise_cons]
      refine ⟨?_, ih _⟩
      intro c hc he
      exact (dedup_subset rest _ c hc).2 (he ▸ List.mem_cons_self ..)

theorem last_opposite_before_eq_some (d1 : List Candle) (p : Candle → Bool) :
    ∀ (m j : Nat), last_opposite_before d1 p m = some j ↔
      (j ≤ m ∧ p (d1.getD j default) = true ∧
       ∀ j', j < j' → j' ≤ m → p (d1.getD j' default) = false) := by
  intro m
  induction m with
  | zero =>
    intro j
    unfold last_opposite_before
    by_cases h0 : p (d1.getD 0 default) = true
    · rw [if_pos h0]
      constructor
      · intro h
        injection h with h'
        subst h'
        exact ⟨le_refl 0, h0, fun j' h1 h2 => absurd (Nat.lt_of_lt_of_le h1 h2) (lt_irrefl _)⟩
      · rintro ⟨hj, _, _⟩
        have : j = 0 := Nat.le_zero.mp hj
        subst this
        rfl
    · rw [if_neg h0]
      constructor
      · intro h
        exact absurd h (by simp)
      · rintro ⟨hj, hp, _⟩
        have : j = 0 := Nat.le_zero.mp hj
        subst this
        exact absurd hp h0
  | succ m ih =>
    intro j
    unfold last_opposite_before
    by_cases hm : p (d1.getD (m + 1) default) = true
    · rw [if_pos hm]
      constructor
      · intro h
        injection h with h'
        subst h'
        exact ⟨le_refl _, hm, fun j' h1 h2 => absurd (Nat.lt_of_lt_of_le h1 h2) (lt_irrefl _)⟩
      · rintro ⟨hj, hp, hnone⟩
        rcases Nat.lt_or_ge j (m + 1) with hlt | hge
        · exact absurd hm (by rw [hnone (m + 1) hlt (le_refl _)]; simp)
        · have : j = m + 1 := Nat.le_antisymm hj hge
          subst this
          rfl
    · rw [if_neg hm]
      rw [ih j]
      constructor
      · rintro ⟨hj, hp, hnone⟩
        refine ⟨Nat.le_succ_of_le hj, hp, fun j' h1 h2 => ?_⟩
        rcases Nat.lt_or_ge j' (m + 1) with hlt | hge
        · exact hnone j' h1 (Nat.lt_succ_iff.mp hlt)
        · have : j' = m + 1 := Nat.le_antisymm h2 hge
          subst this
          exact Bool.eq_false_iff.mpr hm
      · rintro ⟨hj, hp, hnone⟩
        have hjm : j ≤ m := by
          rcases Nat.lt_or_ge j (m + 1) with hlt | hge
          · exact Nat.lt_succ_iff.mp hlt
          · have : j = m + 1 := Nat.le_antisymm hj hge
            subst this
            exact absurd hp hm
        exact ⟨hjm, hp, fun j' h1 h2 => hnone j' h1 (Nat.le_succ_of_le h2)⟩

theorem last_opposite_before_eq_none (d1 : List Candle) (p : Candle → Bool) :
    ∀ (m : Nat), last_opposite_before d1 p m = none ↔
      ∀ j, j ≤ m → p (d1.getD j default) = false := by
  intro m
  induction m with
  | zero =>
    unfold last_opposite_before
    by_cases h0 : p (d1.getD 0 default) = true
    · rw [if_pos h0]
      constructor
      · intro h; exact absurd h (by simp)
      · intro h
        exact absurd h0 (by rw [h 0 (le_refl _)]; simp)
    · rw [if_neg h0]
      constructor
      · intro _ j hj
        have : j = 0 := Nat.le_zero.mp hj
        subst this
        exact Bool.eq_false_iff.mpr h0
      · intro _; rfl
  | succ m ih =>
    unfold last_opposite_before
    by_cases hm : p (d1.getD (m + 1) default) = true
    · rw [if_pos hm]
      constructor
      · intro h; exact absurd h (by simp)
      · intro h
        exact absurd hm (by rw [h (m + 1) (le_refl _)]; simp)
    · rw [if_neg hm]
      rw [ih]
      constructor
      · intro h j hj
        rcases Nat.lt_or_ge j (m + 1) with hlt | hge
        · exact h j (Nat.lt_succ_iff.mp hlt)
        · have : j = m + 1 := Nat.le_antisymm hj hge
          subst this
          exact Bool.eq_false_iff.mpr hm
      · intro h j hj
        exact h j (Nat.le_succ_of_le hj)

theorem find?_range'_eq_some (f : Nat → Bool) :
    ∀ (n s k : Nat), (List.range' s n).find? f = some k ↔
      (s ≤ k ∧ k < s + n ∧ f k = true ∧ ∀ k', s ≤ k' → k' < k → f k' = false) := by
  intro n
  induction n with
  | zero =>
    intro s k
    constructor
    · intro h; exact absurd h (by simp)
    · rintro ⟨h1, h2, _⟩; omega
  | succ n ih =>
    intro s k
    rw [List.range'_succ]
    by_cases hs : f s = true
    · rw [List.find?_cons_of_pos _ hs]
      constructor
      · intro h
        injection h with h'
        subst h'
        exact ⟨le_refl _, by omega, hs, fun k' h1 h2 => by omega⟩
      · rintro ⟨h1, _, _, hnone⟩
        rcases Nat.lt_or_ge s k with hlt | hge
        · exact absurd hs (by rw [hnone s (le_refl _) hlt]; simp)
        · have : k = s := Nat.le_antisymm (by omega) h1
          subst this
          rfl
    · rw [List.find?_cons_of_neg _ hs]
      rw [ih (s + 1) k]
      constructor
      · rintro ⟨h1, h2, h3, hnone⟩
        refine ⟨by omega, by omega, h3, fun k' hk1 hk2 => ?_⟩
        rcases Nat.lt_or_ge k' (s + 1) with hlt | hge
        · have : k' = s := by omega
          subst this
          exact Bool.eq_false_iff.mpr hs
        · exact hnone k' hge hk2
      · rintro ⟨h1, h2, h3, hnone⟩
        have hks : s + 1 ≤ k := by
          rcases Nat.lt_or_ge k (s + 1) with hlt | hge
          · have : k = s := by omega
            subst this
            exact absurd h3 hs
          · exact hge
        exact ⟨hks, by omega, h3, fun k' hk1 hk2 => hnone k' (by omega) hk2⟩

theorem first_mitigation_from_eq_some (d1 : List Candle) (lvl : ℚ) (i k : Nat)
    (hi : i ≤ d1.length) :
    first_mitigation_from d1 lvl i = some k ↔
      (i ≤ k ∧ k < d1.length ∧ (lowAt d1 k ≤ lvl ∧ lvl ≤ highAt d1 k) ∧
       ∀ k', i ≤ k' → k' < k → ¬(lowAt d1 k' ≤ lvl ∧ lvl ≤ highAt d1 k')) := by
  unfold first_mitigation_from
  rw [find?_range'_eq_some _ (d1.length - i) i k]
  constructor
  · rintro ⟨h1, h2, h3, h4⟩
    rw [Bool.and_eq_true, decide_eq_true_iff, decide_eq_true_iff] at h3
    refine ⟨h1, by omega, h3, fun k' hk1 hk2 hc => ?_⟩
    have := h4 k' hk1 hk2
    rw [Bool.and_eq_false_iff] at this
    rcases this with h | h <;> rw [decide_eq_false_iff_not] at h
    · exact h hc.1
    · exact h hc.2
  · rintro ⟨h1, h2, h3, h4⟩
    refine ⟨h1, by omega, ?_, fun k' hk1 hk2 => ?_⟩
    · rw [Bool.and_eq_true, decide_eq_true_iff, decide_eq_true_iff]
      exact h3
    · have := h4 k' hk1 hk2
      rw [Bool.and_eq_false_iff]
      by_cases hl : lowAt d1 k' ≤ lvl
      · exact Or.inr (by rw [decide_eq_false_iff_not]; intro hh; exact this ⟨hl, hh⟩)
      · exact Or.inl (by rw [decide_eq_false_iff_not]; exact hl)

theorem breakout_blocks_up_mem (d1 : List Candle) (sh : List (Nat × ℚ)) (i : Nat)
    (b : Block) :
    b ∈ breakout_blocks_up d1 sh i ↔
      ∃ sw, last_swing_before sh i = some sw ∧ sw.2 < highAt d1 i ∧
        ((∃ j, last_opposite_before d1 (fun c => is_bear c.op c.close) (i - 1) = some j ∧
            b = { kind := .movement, dir := .long, ts := tsAt d1 j,
                  body := candle_body_range (d1.getD j default),
                  wick := candle_wick_range (d1.getD j default),
                  level := sw.2, breakTs := tsAt d1 i }) ∨
         (∃ k, first_mitigation_from d1 sw.2 i = some k ∧
            b = { kind := .mitigation, dir := .long, ts := tsAt d1 k,
                  body := candle_body_range (d1.getD k default),
                  wick := candle_wick_range (d1.getD k default),
                  level := sw.2, breakTs := tsAt d1 i })) := by
  unfold breakout_blocks_up
  rcases hsw : last_swing_before sh i with _ | sw0
  · simp
  · simp only [Option.some.injEq]
    by_cases hlt : sw0.2 < highAt d1 i
    · rw [if_pos hlt]
      rcases hj : last_opposite_before d1 (fun c => is_bear c.op c.close) (i - 1) with _ | j0 <;>
        rcases hk : first_mitigation_from d1 sw0.2 i with _ | k0
      · simp [hk]
      · simp [hk, hlt]
      · simp [hk, hlt]
      · simp [hk, hlt]
    · rw [if_neg hlt]
      constructor
      · intro h
        exact absurd h (by simp)
      · rintro ⟨sw, rfl, hlt', _⟩
        exact absurd hlt' hlt

theorem breakout_blocks_down_mem (d1 : List Candle) (sl : List (Nat × ℚ)) (i : Nat)
    (b : Block) :
    b ∈ breakout_blocks_down d1 sl i ↔
      ∃ sw, last_swing_before sl i = some sw ∧ lowAt d1 i < sw.2 ∧
        ((∃ j, last_opposite_before d1 (fun c => is_bull c.op c.close) (i - 1) = some j ∧
            b = { kind := .movement, dir := .short, ts := tsAt d1 j,
                  body := candle_body_range (d1.getD j default),
                  wick := candle_wick_range (d1.getD j default),
                  level := sw.2, breakTs := tsAt d1 i }) ∨
         (∃ k, first_mitigation_from d1 sw.2 i = some k ∧
            b = { kind := .mitigation, dir := .short, ts := tsAt d1 k,
                  body := candle_body_range (d1.getD k default),
                  wick := candle_wick_range (d1.getD k default),
                  level := sw.2, breakTs := tsAt d1 i })) := by
  unfold breakout_blocks_down
  rcases hsw : last_swing_before sl i with _ | sw0
  · simp
  · simp only [Option.some.injEq]
    by_cases hlt : lowAt d1 i < sw0.2
    · rw [if_pos hlt]
      rcases hj : last_opposite_before d1 (fun c => is_bull c.op c.close) (i - 1) with _ | j0 <;>
        rcases hk : first_mitigation_from d1 sw0.2 i with _ | k0
      · simp [hk]
      · simp [hk, hlt]
      · simp [hk, hlt]
      · simp [hk, hlt]
    · rw [if_neg hlt]
      constructor
      · intro h
        exact absurd h (by simp)
      · rintro ⟨sw, rfl, hlt', _⟩
        exact absurd hlt' hlt

theorem emitted_blocks_mem (d1 : List Candle) (left right : Nat) (b : Block) :
    b ∈ emitted_blocks d1 left right ↔
      ∃ i, i ∈ List.range' 5 (d1.length - 5) ∧
        (b ∈ breakout_blocks_up d1 (swing_points (pivots_high d1 left right)) i ∨
         b ∈ breakout_blocks_down d1 (swing_points (pivots_low d1 left right)) i) := by
  unfold emitted_blocks
  rw [List.mem_flatMap]
  constructor
  · rintro ⟨i, hi, hm⟩
    exact ⟨i, hi, List.mem_append.mp hm⟩
  · rintro ⟨i, hi, hm⟩
    exact ⟨i, hi, List.mem_append.mpr hm⟩

theorem find_d1_blocks_retention (d1 : List Candle) (left right : Nat) :
    (∀ b ∈ find_d1_blocks d1 left right,
       b ∈ emitted_blocks d1 left right ∧
       ∀ b' ∈ emitted_blocks d1 left right, block_key b' = block_key b → b'.ts ≤ b.ts) ∧
    (¬d1.length < 20 →
       ∀ b' ∈ emitted_blocks d1 left right,
         ∃ b ∈ find_d1_blocks d1 left right, block_key b = block_key b') ∧
    (find_d1_blocks d1 left right).Pairwise (fun a c => block_key a ≠ block_key c) := by
  by_cases h20 : d1.length < 20
  · rw [find_d1_blocks_eq, if_pos h20]
    exact ⟨fun b hb => absurd hb (by simp), fun h => absurd h20 h, List.Pairwise.nil⟩
  · rw [find_d1_blocks_eq, if_neg h20]
    refine ⟨?_, ?_, dedup_keys_pairwise _ []⟩
    · intro b hb
      have hsub := dedup_subset _ [] b hb
      refine ⟨(sort_desc_mem b _).mp hsub.1, fun b' hb' hk => ?_⟩
      exact dedup_max_ts _ [] (sort_desc_pairwise _) b hb b'
        ((sort_desc_mem b' _).mpr hb') hk
    · intro _ b' hb'
      exact dedup_covers _ [] b' ((sort_desc_mem b' _).mpr hb') (by simp)

/-- C8: counterexample.  On `dFix` the only mitigation block is emitted at the
breakout candle ITSELF (`ts = breakTs = 600`): candle 6 both breaks the swing
high 100 and wick-contains it, while no candle strictly after the breakout
wick-contains the level — under the spec's "first subsequent candle" reading no
mitigation block would exist at all (`src/main.py` line 411 starts the scan at
`k = i`, not `k = i + 1`). -/
theorem c8_counterexample :
    (find_d1_blocks dFix 1 1).filter (fun b => decide (b.kind = BlockKind.mitigation)) =
      [blockFix] ∧
    blockFix.ts = blockFix.breakTs ∧
    ((List.range' 7 (dFix.length - 7)).all fun k =>
      !(decide (lowAt dFix k ≤ 100) && decide ((100 : ℚ) ≤ highAt dFix k))) = true := by
  refine ⟨by decide, rfl, by decide⟩

/-- C8 (amended): when `candles[i].high` exceeds the last swing high before
`i`, the detector emits (a) a MOVEMENT/LONG block at the nearest candle at or
before `i - 1` that is bearish (`close < open`) — its body and wick ranges
taken from that candle, its level the exceeded swing high, with no block (and
no error) when no bearish candle exists — and (b) a MITIGATION/LONG block at
the first candle AT or after the breakout candle `i` (`k = i` included) whose
wick range contains the broken level; symmetric for a low that undercuts the
last swing low (direction SHORT); finally only the most recent block per
`(kind, direction)` key survives the dedup, every emitted key being
represented. -/
theorem c8_block_construction :
    (∀ (d1 : List Candle) (p : Candle → Bool) (m j : Nat),
       last_opposite_before d1 p m = some j ↔
         (j ≤ m ∧ p (d1.getD j default) = true ∧
          ∀ j', j < j' → j' ≤ m → p (d1.getD j' default) = false)) ∧
    (∀ (d1 : List Candle) (p : Candle → Bool) (m : Nat),
       last_opposite_before d1 p m = none ↔
         ∀ j, j ≤ m → p (d1.getD j default) = false) ∧
    (∀ (d1 : List Candle) (lvl : ℚ) (i k : Nat), i ≤ d1.length →
       (first_mitigation_from d1 lvl i = some k ↔
         (i ≤ k ∧ k < d1.length ∧ (lowAt d1 k ≤ lvl ∧ lvl ≤ highAt d1 k) ∧
          ∀ k', i ≤ k' → k' < k → ¬(lowAt d1 k' ≤ lvl ∧ lvl ≤ highAt d1 k')))) ∧
    (∀ (d1 : List Candle) (sh : List (Nat × ℚ)) (i : Nat) (b : Block),
       b ∈ breakout_blocks_up d1 sh i ↔
         ∃ sw, last_swing_before sh i = some sw ∧ sw.2 < highAt d1 i ∧
           ((∃ j, last_opposite_before d1 (fun c => is_bear c.op c.close) (i - 1) = some j ∧
               b = { kind := .movement, dir := .long, ts := tsAt d1 j,
                     body := candle_body_range (d1.getD j default),
                     wick := candle_wick_range (d1.getD j default),
                     level := sw.2, breakTs := tsAt d1 i }) ∨
            (∃ k, first_mitigation_from d1 sw.2 i = some k ∧
               b = { kind := .mitigation, dir := .long, ts := tsAt d1 k,
                     body := candle_body_range (d1.getD k default),
                     wick := candle_wick_range (d1.getD k default),
                     level := sw.2, breakTs := tsAt d1 i }))) ∧
    (∀ (d1 : List Candle) (sl : List (Nat × ℚ)) (i : Nat) (b : Block),
       b ∈ breakout_blocks_down d1 sl i ↔
         ∃ sw, last_swing_before sl i = some sw ∧ lowAt d1 i < sw.2 ∧
           ((∃ j, last_opposite_before d1 (fun c => is_bull c.op c.close) (i - 1) = some j ∧
               b = { kind := .movement, dir := .short, ts := tsAt d1 j,
                     body := candle_body_range (d1.getD j default),
                     wick := candle_wick_range (d1.getD j default),
                     level := sw.2, breakTs := tsAt d1 i }) ∨
            (∃ k, first_mitigation_from d1 sw.2 i = some k ∧
               b = { kind := .mitigation, dir := .short, ts := tsAt d1 k,
                     body := candle_body_range (d1.getD k default),
                     wick := candle_wick_range (d1.getD k default),
                     level := sw.2, breakTs := tsAt d1 i }))) ∧
    (∀ (d1 : List Candle) (left right : Nat) (b : Block),
       b ∈ emitted_blocks d1 left right ↔
         ∃ i, i ∈ List.range' 5 (d1.length - 5) ∧
           (b ∈ breakout_blocks_up d1 (swing_points (pivots_high d1 left right)) i ∨
            b ∈ breakout_blocks_down d1 (swing_points (pivots_low d1 left right)) i)) ∧
    (∀ (d1 : List Candle) (left right : Nat),
       (∀ b ∈ find_d1_blocks d1 left right,
          b ∈ emitted_blocks d1 left right ∧
          ∀ b' ∈ emitted_blocks d1 left right, block_key b' = block_key b → b'.ts ≤ b.ts) ∧
       (¬d1.length < 20 →
          ∀ b' ∈ emitted_blocks d1 left right,
            ∃ b ∈ find_d1_blocks d1 left right, block_key b = block_key b') ∧
       (find_d1_blocks d1 left right).Pairwise fun a c => block_key a ≠ block_key c) :=
  ⟨last_opposite_before_eq_some, last_opposite_before_eq_none,
   fun d1 lvl i k hi => first_mitigation_from_eq_some d1 lvl i k hi,
   breakout_blocks_up_mem, breakout_blocks_down_mem, emitted_blocks_mem,
   find_d1_blocks_retention⟩

/-- C8 witness: on `dFix` the mitigation scan starting at the breakout index 6
finds candle 6 itself, and the mitigation block `blockFix` is emitted by the
up-breakout branch at `i = 6`. -/
theorem c8_block_construction_witness :
    (6 ≤ 6 ∧ 6 < dFix.length ∧ (lowAt dFix 6 ≤ 100 ∧ (100 : ℚ) ≤ highAt dFix 6) ∧
      ∀ k', 6 ≤ k' → k' < 6 → ¬(lowAt dFix k' ≤ 100 ∧ (100 : ℚ) ≤ highAt dFix k')) ∧
    blockFix ∈ breakout_blocks_up dFix (swing_points (pivots_high dFix 1 1)) 6 :=
  ⟨(c8_block_construction.2.2.1 dFix 100 6 6 (by decide)).mp (by decide),
   (c8_block_construction.2.2.2.1 dFix (swing_points (pivots_high dFix 1 1)) 6
      blockFix).mpr
     ⟨(3, 100), by decide, by decide, Or.inr ⟨6, by decide, by decide⟩⟩⟩
